import Mathlib

/-!
# CommonEx buffers: SendBuffer, TStream

Shallow embedding of `CommonEx/public/Buffer.h`.

* Machine integers are natural numbers reduced explicitly: `uint32_t` values modulo `2^32`;
  `size_t` is the 64-bit type of an x64 build, its values range below `2^64`.
* Memory is a map from byte offsets to byte values.  Offset `0` is the first byte of the
  array `SendBuffer::Buffer`; offsets at or beyond `BufferSize` stand for whatever follows
  the array, so that the unchecked writes of the source have a defined effect in the model.
* Pointers into a send buffer are offsets from `Buffer[0]`.
-/

namespace CommonEx

/-! ## Machine integers and byte strings -/

/-- Number of values of `uint32_t`. -/
def U32 : Nat := 2 ^ 32

/-- Number of values of `size_t` (64-bit target). -/
def U64 : Nat := 2 ^ 64

/-- Result codes `RSuccess` and `RFail` of the library. -/
inductive RStatus where
  | RSuccess
  | RFail
  deriving DecidableEq, Repr

/-- Object representation of an unsigned integer of `w` bytes on the (little-endian) target:
least significant byte first, the value reduced modulo `256 ^ w`. -/
def leBytes : Nat → Nat → List Nat
  | 0, _ => []
  | w + 1, v => (v % 256) :: leBytes w (v / 256)

/-- The unsigned integer a little-endian byte string stands for. -/
def leValue : List Nat → Nat
  | [] => 0
  | b :: bs => b + 256 * leValue bs

/-- Memory seen from `Buffer[0]`: byte offset to byte value. -/
abbrev Mem := Nat → Nat

/-- Store the bytes `data` at offsets `off, off + 1, ...`. -/
def storeBytes (m : Mem) (off : Nat) (data : List Nat) : Mem :=
  fun i => if off ≤ i ∧ i < off + data.length then data.getD (i - off) 0 else m i

/-- Store `n` zero bytes from offset `off` on. -/
def zeroBytes (m : Mem) (off n : Nat) : Mem :=
  fun i => if off ≤ i ∧ i < off + n then 0 else m i

/-- The `n` bytes at offsets `off, ..., off + n - 1`. -/
def loadBytes (m : Mem) (off n : Nat) : List Nat :=
  (List.range n).map (fun i => m (off + i))

/-- The error code `ERANGE` of the C runtime. -/
def ERANGE : Nat := 34

/-- The C runtime's `memcpy_s(dest, destsz, src, count)` for non-null `dest` and `src`: nothing
is done for `count = 0`; when `count` exceeds `destsz` the `destsz` destination bytes are zeroed
and `ERANGE` is returned (the case in which the runtime's invalid-parameter handler lets the
call return); otherwise `count` bytes are copied and `0` is returned. `src` is the byte string
found at the source pointer, of which the first `count` bytes are copied. -/
def memcpy_s (m : Mem) (dest destsz : Nat) (src : List Nat) (count : Nat) : Nat × Mem :=
  if count = 0 then (0, m)
  else if destsz < count then (ERANGE, zeroBytes m dest destsz)
  else (0, storeBytes m dest (src.take count))

/-! ## SendBuffer -/

/-- The state of a `SendBuffer<_BufferSize>`: the constant `BufferSize`, the write position
`Position` (both `uint32_t`) and the bytes of `Buffer` (with what follows them in memory). -/
structure SendBuffer where
  BufferSize : Nat
  Position : Nat
  Buffer : Mem

namespace SendBuffer

/-- A freshly constructed `SendBuffer<C>`: `Position{ 0 }`; the array is not initialised, `m` is
what the memory happens to hold. -/
def new (C : Nat) (m : Mem) : SendBuffer :=
  { BufferSize := C, Position := 0, Buffer := m }

/-- The member `GetFront()`, that is `Buffer + Position`, as an offset. -/
def GetFront (s : SendBuffer) : Nat := s.Position

/-- The member `GetRemaining()`, that is `BufferSize - Position` in `uint32_t` arithmetic. -/
def GetRemaining (s : SendBuffer) : Nat := (s.BufferSize + U32 - s.Position) % U32

/-- The member `GetSize()`, that is `Position`. -/
def GetSize (s : SendBuffer) : Nat := s.Position

/-- The member `CanFit(uint32_t Size)`, that is `GetRemaining() >= Size`. -/
def CanFit (s : SendBuffer) (Size : Nat) : Bool := decide (s.GetRemaining ≥ Size)

/-- The member `Write(const uint8_t* Data, size_t Size)`. `Data` is the byte string at the
source pointer. The call `CanFit(Size)` converts the `size_t` argument to the `uint32_t`
parameter; a non-zero result of `memcpy_s` makes `RTRY_L_FMT` return the failure;
`Position += Size` is taken in `uint32_t`. -/
def Write (s : SendBuffer) (Data : List Nat) (Size : Nat) : RStatus × SendBuffer :=
  if !s.CanFit (Size % U32) then (RStatus.RFail, s)
  else
    let r := memcpy_s s.Buffer s.GetFront s.GetRemaining Data Size
    if r.1 ≠ 0 then (RStatus.RFail, { s with Buffer := r.2 })
    else (RStatus.RSuccess, { s with Buffer := r.2, Position := (s.Position + Size) % U32 })

/-- The member template `Write<T>(const T& Value)` for an unsigned integer type of `w` bytes:
`*((T*)(GetFront())) = Value; Position += sizeof(T);`, no check. -/
def WriteT (s : SendBuffer) (w v : Nat) : SendBuffer :=
  { s with Buffer := storeBytes s.Buffer s.GetFront (leBytes w v),
           Position := (s.Position + w) % U32 }

end SendBuffer

/-- One write of a write sequence: the bounded `Write(bytes, len)` with `len` the length of
`bytes`, or the fixed-width `Write<T>(value)` with `sizeof(T) = w`. -/
inductive WriteOp where
  | bytes (data : List Nat)
  | value (w v : Nat)

/-- Number of bytes a write asks for. -/
def WriteOp.size : WriteOp → Nat
  | .bytes data => data.length
  | .value w _ => w

/-- The byte string a write stores. -/
def WriteOp.repr : WriteOp → List Nat
  | .bytes data => data
  | .value w v => leBytes w v

/-- Whether a write is a bounded `Write(bytes, len)`, the kind that returns a status. -/
def WriteOp.isBounded : WriteOp → Bool
  | .bytes _ => true
  | .value _ _ => false

/-- Run a write sequence; the statuses of the bounded writes are collected in order. -/
def applyWrites : SendBuffer → List WriteOp → List RStatus × SendBuffer
  | s, [] => ([], s)
  | s, .bytes data :: ops =>
    let r := s.Write data data.length
    let rest := applyWrites r.2 ops
    (r.1 :: rest.1, rest.2)
  | s, .value w v :: ops => applyWrites (s.WriteT w v) ops

/-- The bytes a write sequence stores, concatenated in order. -/
def concatWrites : List WriteOp → List Nat
  | [] => []
  | op :: ops => op.repr ++ concatWrites ops

/-- Total number of bytes a write sequence asks for. -/
def totalSize : List WriteOp → Nat
  | [] => 0
  | op :: ops => op.size + totalSize ops

/-! ## Packet field widths -/

/-- Bytes of `TPacketSize`; the typedef is not in `Buffer.h`, the width is the one its
comments give: "[ 2]Size placeholder", "in the first UINT16". -/
def sizeofTPacketSize : Nat := 2

/-- Bytes of `TPacketOpcode`; comment in `NewPacket`: "[ 2]C_W_ROUTE_PACKET opcode". -/
def sizeofTPacketOpcode : Nat := 2

/-- Bytes of `EntityId`; comment in `NewPacket`: "[ 8]EntityId (connectionId)". -/
def sizeofEntityId : Nat := 8

/-- The enumerator `Opcode_ROUTED_PACKET = 3` of `Opcode.h`. -/
def Opcode_ROUTED_PACKET : Nat := 3

/-! ## TStream -/

/-- Modelled from the spec: the base class `IStream` of `TStream`, which is declared in none
of `Buffer.h`, `Memory.h`, `Opcode.h`. It holds the view (`Buffer`, the start, here an offset
from the owner's `Buffer[0]`, and `Size`, the length) and the local cursor `Position`. -/
structure IStream where
  Buffer : Nat
  Size : Nat
  Position : Nat

/-- The state of a `TStream`: the `IStream` base and the member `Stream`, the pointer to the
owning send buffer; `Stream = true` stands for a non-null pointer. The owner itself is passed
to the operations that go through the pointer. -/
structure TStream extends IStream where
  Stream : Bool

namespace IStream

/-- Modelled from the spec: `IStream::Release()` drops the view and the cursor (the null view
is rendered as start 0, length 0). -/
def Release (_s : IStream) : IStream :=
  { Buffer := 0, Size := 0, Position := 0 }

/-- Modelled from the spec: the move constructor and move assignment of `IStream` ("Move
transfers the pending session; a moved-from Stream commits nothing"): the destination takes
view and cursor, the source is left released. Result: destination, source. -/
def move (Other : IStream) : IStream × IStream :=
  (Other, Other.Release)

end IStream

namespace TStream

/-- The constructor `TStream(ISendBuffer* Buffer, bool CurrentPositionAsBase)`:
`IStream(Buffer->GetFront(), Buffer->GetRemaining(), 0)` and `Stream = Buffer`. The flag is
not used by the body. -/
def ctor (Buffer : SendBuffer) (_CurrentPositionAsBase : Bool) : TStream :=
  { Buffer := Buffer.GetFront, Size := Buffer.GetRemaining, Position := 0, Stream := true }

/-- The member `GetPosition()` of the base. -/
def GetPosition (st : TStream) : Nat := st.Position

/-- Modelled from the spec: the staged raw write of the base class `IStream`: the bytes go to
the view at the cursor, that is into the owner's array at `Buffer + Position`, and the cursor
advances; the owner's `Position` is not touched. The write is modelled without a check
against `Size`; a checked write does the same whenever the bytes fit the view. -/
def Write (st : TStream) (owner : SendBuffer) (data : List Nat) : TStream × SendBuffer :=
  ({ st with Position := st.Position + data.length },
   { owner with Buffer := storeBytes owner.Buffer (st.Buffer + st.Position) data })

/-- Modelled from the spec: the fixed-width `Write<T>(value)` of the base class, `w = sizeof(T)`. -/
def WriteT (st : TStream) (owner : SendBuffer) (w v : Nat) : TStream × SendBuffer :=
  st.Write owner (leBytes w v)

/-- Modelled from the spec: `WriteAt<T>(value, offset)` of the base class: overwrite at
view offset `offset`, the cursor does not move. -/
def WriteAt (st : TStream) (owner : SendBuffer) (w v offset : Nat) : SendBuffer :=
  { owner with Buffer := storeBytes owner.Buffer (st.Buffer + offset) (leBytes w v) }

/-- The member `Commit(bool Rebase)`: `Stream->Position += (uint32_t)GetPosition();` and, if
`Rebase`, `Buffer += GetPosition(); Position = 0;`. `owner` is the object `Stream` points to. -/
def Commit (st : TStream) (owner : SendBuffer) (Rebase : Bool) : TStream × SendBuffer :=
  let owner1 := { owner with Position := (owner.Position + st.GetPosition % U32) % U32 }
  if Rebase then ({ st with Buffer := st.Buffer + st.GetPosition, Position := 0 }, owner1)
  else (st, owner1)

/-- The member `CommitPacket(bool Rebase)`: `WriteAt((TPacketSize)GetPosition(), 0); Commit(Rebase);`. -/
def CommitPacket (st : TStream) (owner : SendBuffer) (Rebase : Bool) : TStream × SendBuffer :=
  st.Commit
    (st.WriteAt owner sizeofTPacketSize (st.GetPosition % 256 ^ sizeofTPacketSize) 0) Rebase

/-- The member `Rollback()`: `Position = 0;`. -/
def Rollback (st : TStream) : TStream :=
  { st with Position := 0 }

/-- The member `Release()`: `IStream::Release(); Stream = nullptr;`. -/
def Release (st : TStream) : TStream :=
  { toIStream := st.toIStream.Release, Stream := false }

/-- The destructor `~TStream()`: `if (Stream) { Commit(); Release(); }`, `Commit()` with the
default `Rebase = true`. Result: the object as the destructor leaves it, and the owner. -/
def dtor (st : TStream) (owner : SendBuffer) : TStream × SendBuffer :=
  if st.Stream then ((st.Commit owner true).1.Release, (st.Commit owner true).2)
  else (st, owner)

/-- The move constructor `TStream(TStream&& Other)`: `IStream(std::move(Other))` and
`Stream = Other.Stream;`. `Other.Stream` is not reset. Result: the new object, `Other`. -/
def moveCtor (Other : TStream) : TStream × TStream :=
  ({ toIStream := Other.toIStream.move.1, Stream := Other.Stream },
   { toIStream := Other.toIStream.move.2, Stream := Other.Stream })

/-- The move assignment `operator=(TStream&& Other)` for `this != &Other`:
`IStream::operator=(std::move(Other)); Stream = Other.Stream; Other.Release();`.
Result: `*this`, `Other`. -/
def moveAssign (_this Other : TStream) : TStream × TStream :=
  ({ toIStream := Other.toIStream.move.1, Stream := Other.Stream },
   TStream.Release { toIStream := Other.toIStream.move.2, Stream := Other.Stream })

end TStream

/-- The member `SendBuffer::ToStream(bool CurrentPositionAsBase)`:
`TStream(reinterpret_cast<ISendBuffer*>(this), CurrentPositionAsBase)`. -/
def SendBuffer.ToStream (s : SendBuffer) (CurrentPositionAsBase : Bool) : TStream :=
  TStream.ctor s CurrentPositionAsBase

/-- `TSendBuffer::NewPacket<BufferSize>(ConnectionId)`, given what `New<BufferSize>()` handed
out (`none` is the empty handle, otherwise the buffer drawn from the pool): the size
placeholder, the opcode and the connection id are written with `Write<T>`. -/
def TSendBuffer.NewPacket (Buffer : Option SendBuffer) (ConnectionId : Nat) :
    Option SendBuffer :=
  match Buffer with
  | none => none
  | some b =>
    some (((b.WriteT sizeofTPacketSize 0).WriteT sizeofTPacketOpcode
      Opcode_ROUTED_PACKET).WriteT sizeofEntityId ConnectionId)

/-! ## Sequences of operations -/

/-- One operation on an open `TStream`. -/
inductive StreamOp where
  | write (data : List Nat)
  | commit (Rebase : Bool)
  | commitPacket (Rebase : Bool)
  | rollback

/-- Run one operation on a stream and its owner. -/
def runOp (x : TStream × SendBuffer) : StreamOp → TStream × SendBuffer
  | .write data => x.1.Write x.2 data
  | .commit Rebase => x.1.Commit x.2 Rebase
  | .commitPacket Rebase => x.1.CommitPacket x.2 Rebase
  | .rollback => (x.1.Rollback, x.2)

/-- Run operations on a stream and its owner, in order. -/
def runOps (x : TStream × SendBuffer) : List StreamOp → TStream × SendBuffer
  | [] => x
  | op :: ops => runOps (runOp x op) ops

/-- Every staged write of the sequence stays within the view length the stream has at that
moment: `Position + len <= Size`. -/
def opsInView (x : TStream × SendBuffer) : List StreamOp → Bool
  | [] => true
  | .write data :: ops =>
    decide (x.1.Position + data.length ≤ x.1.Size) && opsInView (runOp x (.write data)) ops
  | op :: ops => opsInView (runOp x op) ops

/-- Every staged write of the sequence stays inside the owner's array (view start + cursor +
len <= BufferSize) and every commit of the sequence rebases. -/
def opsInside (x : TStream × SendBuffer) : List StreamOp → Bool
  | [] => true
  | .write data :: ops =>
    decide (x.1.Buffer + x.1.Position + data.length ≤ x.2.BufferSize) &&
      opsInside (runOp x (.write data)) ops
  | .commit Rebase :: ops => Rebase && opsInside (runOp x (.commit Rebase)) ops
  | .commitPacket Rebase :: ops => Rebase && opsInside (runOp x (.commitPacket Rebase)) ops
  | .rollback :: ops => opsInside (runOp x .rollback) ops

/-- One step on a send buffer: a bounded `Write(bytes, len)`, or a stream session, that is
`ToStream(flag)`, operations on the stream, and the destruction of the stream. -/
inductive Step where
  | write (data : List Nat)
  | session (flag : Bool) (ops : List StreamOp)

/-- Run one step. -/
def runStep (s : SendBuffer) : Step → SendBuffer
  | .write data => (s.Write data data.length).2
  | .session flag ops =>
    ((runOps (s.ToStream flag, s) ops).1.dtor (runOps (s.ToStream flag, s) ops).2).2

/-- Run steps in order. -/
def runSteps (s : SendBuffer) : List Step → SendBuffer
  | [] => s
  | st :: sts => runSteps (runStep s st) sts

/-- The condition `opsInView` for every session of a step sequence. -/
def stepsInView (s : SendBuffer) : List Step → Bool
  | [] => true
  | .write data :: sts => stepsInView (runStep s (.write data)) sts
  | .session flag ops :: sts =>
    opsInView (s.ToStream flag, s) ops && stepsInView (runStep s (.session flag ops)) sts

/-- The condition `opsInside` for every session of a step sequence. -/
def stepsInside (s : SendBuffer) : List Step → Bool
  | [] => true
  | .write data :: sts => stepsInside (runStep s (.write data)) sts
  | .session flag ops :: sts =>
    opsInside (s.ToStream flag, s) ops && stepsInside (runStep s (.session flag ops)) sts

/-- Staged writes of the byte strings `ws` through a stream, in order. -/
def stage (x : TStream × SendBuffer) (ws : List (List Nat)) : TStream × SendBuffer :=
  runOps x (ws.map StreamOp.write)

/-- A stream is opened with `ToStream(flag)`, the byte strings `ws` are staged, and
`Commit(true)` is called. -/
def stageCommit (s : SendBuffer) (flag : Bool) (ws : List (List Nat)) : TStream × SendBuffer :=
  (stage (s.ToStream flag, s) ws).1.Commit (stage (s.ToStream flag, s) ws).2 true

/-- The invariant of a rebasing session over a buffer of capacity `C`: the view starts at the
owner's write position and the staged bytes end inside the array. -/
def sessionInv (C : Nat) (x : TStream × SendBuffer) : Prop :=
  x.2.BufferSize = C ∧ x.1.Buffer = x.2.Position ∧ x.1.Buffer + x.1.Position ≤ C

/-! ## SendBuffer: WriteAt -/

/-- The member template `SendBuffer::WriteAt<T>(const T& Value, uint16_t Offset)` for an unsigned
integer type of `w` bytes: `*((T*)(GetBuffer() + Offset)) = Value;`. The parameter `Offset` is a
`uint16_t`: the caller's offset arrives reduced modulo `2^16`. -/
def SendBuffer.WriteAt (s : SendBuffer) (w v Offset : Nat) : SendBuffer :=
  { s with Buffer := storeBytes s.Buffer (Offset % 2 ^ 16) (leBytes w v) }

/-! ## Memory.h: MemoryResource -/

/-- The state of a `MemoryResourceBase`: the callback `Destroy` (`none` when it is not set,
otherwise a name for the stored callable), the reference count `RefCount` (`uint32_t`) and the
flag `bIsPendingDestroy`. -/
structure MemoryResource where
  Destroy : Option Nat
  RefCount : Nat
  bIsPendingDestroy : Bool
  deriving DecidableEq, Repr

/-- What a release that drops the last reference does: `Destroy(bCallDestructor)` on the stored
callable `id`, or `GFreeCpp(this)` when no callable is stored. -/
inductive DestroyEvent where
  | callback (id : Nat) (bCallDestructor : Bool)
  | free
  deriving DecidableEq, Repr

/-- The intrinsic `_InterlockedCompareExchange(Destination, Exchange, Comparand)` executed with
no other thread in between: the result is the initial value of the destination, which is
replaced by `Exchange` when it equals `Comparand`. Result: returned value, destination. -/
def InterlockedCompareExchange (Destination Exchange Comparand : Nat) : Nat × Nat :=
  (Destination, if Destination = Comparand then Exchange else Destination)

/-- The intrinsic `_InterlockedDecrement(Addend)`: the 32-bit value is decremented and the new
value is returned. -/
def InterlockedDecrement (Addend : Nat) : Nat := (Addend + U32 - 1) % U32

/-- The loop of the atomic `AddReference`,
`while (RefCount != 0) { OldValue = CAS(&VolatileRefCount, RefCount + 1, RefCount);
if (OldValue == RefCount) return; RefCount = OldValue; }`, run for at most `fuel` rounds.
`mem` is the member, `RefCount` the local copy; `RefCount + 1` is taken in 32 bits. The result
is the member when the function returns, `none` when the rounds are used up. -/
def AddReferenceLoop : Nat → Nat → Nat → Option Nat
  | 0, mem, RefCount => if RefCount ≠ 0 then none else some mem
  | fuel + 1, mem, RefCount =>
    if RefCount ≠ 0 then
      if (InterlockedCompareExchange mem ((RefCount + 1) % U32) RefCount).1 = RefCount then
        some (InterlockedCompareExchange mem ((RefCount + 1) % U32) RefCount).2
      else
        AddReferenceLoop fuel (InterlockedCompareExchange mem ((RefCount + 1) % U32) RefCount).2
          (InterlockedCompareExchange mem ((RefCount + 1) % U32) RefCount).1
    else some mem

namespace MemoryResource

/-- The member `AddReference()` of `MemoryResource<bAtomicRef>`: with `bAtomicRef` the member is
loaded and the compare-and-swap loop is run; otherwise `RefCount++`. -/
def AddReference (bAtomicRef : Bool) (fuel : Nat) (r : MemoryResource) : Option MemoryResource :=
  if bAtomicRef then
    (AddReferenceLoop fuel r.RefCount r.RefCount).map (fun c => { r with RefCount := c })
  else some { r with RefCount := (r.RefCount + 1) % U32 }

/-- The member `ReleaseReference()` of `MemoryResource<bAtomicRef>`: with `bAtomicRef`,
`_InterlockedDecrement(&RefCount) == 0`; otherwise `RefCount--; RefCount == 0`. -/
def ReleaseReference (bAtomicRef : Bool) (r : MemoryResource) : Bool × MemoryResource :=
  if bAtomicRef then
    (decide (InterlockedDecrement r.RefCount = 0),
     { r with RefCount := InterlockedDecrement r.RefCount })
  else
    (decide ((r.RefCount + U32 - 1) % U32 = 0), { r with RefCount := (r.RefCount + U32 - 1) % U32 })

/-- The member `ReleaseReferenceAndDestroy()`: when `ReleaseReference()` returns true,
`Destroy(true)` is called if `Destroy` is set and `GFreeCpp(this)` otherwise, and true is
returned; otherwise false. `log` collects the destroy actions. -/
def ReleaseReferenceAndDestroy (bAtomicRef : Bool) (r : MemoryResource)
    (log : List DestroyEvent) : Bool × MemoryResource × List DestroyEvent :=
  if (ReleaseReference bAtomicRef r).1 then
    match r.Destroy with
    | some id => (true, (ReleaseReference bAtomicRef r).2, log ++ [DestroyEvent.callback id true])
    | none => (true, (ReleaseReference bAtomicRef r).2, log ++ [DestroyEvent.free])
  else (false, (ReleaseReference bAtomicRef r).2, log)

end MemoryResource

/-- The destroy action of a resource: the stored callback called with `true`, or the default
free. -/
def destroyAction (r : MemoryResource) : DestroyEvent :=
  match r.Destroy with
  | some id => DestroyEvent.callback id true
  | none => DestroyEvent.free

/-- Consecutive `AddReference()` calls, `T` of them. -/
def addReferences (bAtomicRef : Bool) (fuel : Nat) : Nat → MemoryResource → Option MemoryResource
  | 0, r => some r
  | T + 1, r => (MemoryResource.AddReference bAtomicRef fuel r).bind (addReferences bAtomicRef fuel T)

/-- Consecutive `ReleaseReference()` calls, `T` of them. -/
def releaseReferences (bAtomicRef : Bool) : Nat → MemoryResource → MemoryResource
  | 0, r => r
  | T + 1, r => releaseReferences bAtomicRef T (MemoryResource.ReleaseReference bAtomicRef r).2

/-- Consecutive `ReleaseReferenceAndDestroy()` calls, `n` of them: the returned values in order,
the final state and the log of destroy actions. -/
def releaseAndDestroyN (bAtomicRef : Bool) :
    Nat → MemoryResource → List DestroyEvent → List Bool × MemoryResource × List DestroyEvent
  | 0, r, log => ([], r, log)
  | n + 1, r, log =>
    ((MemoryResource.ReleaseReferenceAndDestroy bAtomicRef r log).1 ::
      (releaseAndDestroyN bAtomicRef n
        (MemoryResource.ReleaseReferenceAndDestroy bAtomicRef r log).2.1
        (MemoryResource.ReleaseReferenceAndDestroy bAtomicRef r log).2.2).1,
     (releaseAndDestroyN bAtomicRef n
        (MemoryResource.ReleaseReferenceAndDestroy bAtomicRef r log).2.1
        (MemoryResource.ReleaseReferenceAndDestroy bAtomicRef r log).2.2).2)

/-! ## Memory.h: MemoryBlockBase -/

/-- The members of `MemoryBlockBase`; `Block` is the address of the first byte. -/
structure MemoryBlockBase where
  BlockSize : Nat
  ElementSize : Nat
  ElementsCount : Nat
  Block : Nat
  deriving DecidableEq, Repr

/-- The member `CanFit(ulong_t Length, ulong_t StartOffset)`:
`if (BlockSize < (Length + StartOffset)) return nullptr; return Block + StartOffset;`, the sum
taken in `ulong_t`. `ULONG` is the number of values of `ulong_t`, whose typedef is not in
`Memory.h` (`2^64` by the data model of the specification, `2^32` for the `unsigned long` of the
compiler the intrinsics belong to). `none` is the null pointer. -/
def MemoryBlockBase.CanFit (ULONG : Nat) (b : MemoryBlockBase) (Length StartOffset : Nat) :
    Option Nat :=
  if b.BlockSize < (Length + StartOffset) % ULONG then none else some (b.Block + StartOffset)

/-! ## RecvBuffer -/

/-- The enumeration `EReceiveState`. -/
inductive EReceiveState where
  | EReceiveState_PacketHead
  | EReceiveState_PacketBody
  deriving DecidableEq, Repr

/-- The `int32_t` value of an enumerator of `EReceiveState`. -/
def EReceiveState.toInt : EReceiveState → Int
  | .EReceiveState_PacketHead => 0
  | .EReceiveState_PacketBody => 1

/-- Modelled from the spec: the interface object `IBuffer`, declared outside `Buffer.h`: the
exposed pointer `Buffer`, here an offset from the first byte of the owning array, and the exposed
length `Length`, taken as a 32-bit unsigned integer. -/
structure IBuffer where
  Buffer : Nat
  Length : Nat
  deriving DecidableEq, Repr

/-- The state of a `RecvBuffer` that `Reset` and `Update` touch: the interface object, `IOState`
and the bytes of the operating system's overlapped structure in the base `AsyncWork`. -/
structure RecvBuffer where
  IBuffer : CommonEx.IBuffer
  IOState : Int
  WorkOverllapped : List Nat
  deriving DecidableEq, Repr

namespace RecvBuffer

/-- The member `Reset(TPacketSize RecvLength)`: `IBuffer.Buffer = Buffer;
IBuffer.Length = RecvLength; IOState = 0; memset(&this->WorkOverllapped, 0, ...)`. The
parameter is a `TPacketSize`. -/
def Reset (r : RecvBuffer) (RecvLength : Nat) : RecvBuffer :=
  { IBuffer := { Buffer := 0, Length := RecvLength % 256 ^ sizeofTPacketSize },
    IOState := 0,
    WorkOverllapped := List.replicate r.WorkOverllapped.length 0 }

/-- The member `Update(TPacketSize UpdateSize)`: `IBuffer.Buffer += UpdateSize;
IBuffer.Length -= UpdateSize;`. The parameter is a `TPacketSize`. -/
def Update (r : RecvBuffer) (UpdateSize : Nat) : RecvBuffer :=
  { r with IBuffer :=
      { Buffer := r.IBuffer.Buffer + UpdateSize % 256 ^ sizeofTPacketSize,
        Length := (r.IBuffer.Length + U32 - UpdateSize % 256 ^ sizeofTPacketSize) % U32 } }

end RecvBuffer

/-! ## TSendBuffer and TRecvBuffer: acquisition -/

/-- The constants `CSize1ServerSendBufferSize` ... `CSize5ServerSendBufferSize`, which are
defined outside `Buffer.h`. -/
structure SendBufferSizes where
  CSize1ServerSendBufferSize : Nat
  CSize2ServerSendBufferSize : Nat
  CSize3ServerSendBufferSize : Nat
  CSize4ServerSendBufferSize : Nat
  CSize5ServerSendBufferSize : Nat

/-- The size of class `i`, for `i` from 1 to 5. -/
def SendBufferSizes.size (c : SendBufferSizes) : Nat → Nat
  | 1 => c.CSize1ServerSendBufferSize
  | 2 => c.CSize2ServerSendBufferSize
  | 3 => c.CSize3ServerSendBufferSize
  | 4 => c.CSize4ServerSendBufferSize
  | _ => c.CSize5ServerSendBufferSize

/-- What an acquisition does: it returns a handle to `buffer`, drawn with `NewRaw()` from the
pool `drawnFrom`, whose `Destroy` callback hands the instance to `Pool::Deallocate` of the pool
`DestroyPool`; or it returns the empty handle; or it stores to `NewBuffer->Destroy` while
`NewBuffer` is the null pointer that `NewRaw()` of the pool `drawnFrom` returned. -/
inductive Acquired (β : Type) where
  | handle (buffer : β) (drawnFrom : Nat) (DestroyPool : Nat)
  | empty
  | nullAccess (drawnFrom : Nat)

/-- The statements `NewBuffer = reinterpret_cast<ISendBuffer*>(SizeN::NewRaw());
TSEND_BUFFER_DESTROY_CALLBACK(SizeM)` followed by `return NewBuffer;`: the assignment to
`NewBuffer->Destroy` is executed without a test of `NewBuffer`. -/
def TSEND_BUFFER_DESTROY_CALLBACK {β : Type} (drawnFrom : Nat) (NewBuffer : Option β)
    (Pool : Nat) : Acquired β :=
  match NewBuffer with
  | none => Acquired.nullAccess drawnFrom
  | some b => Acquired.handle b drawnFrom Pool

/-- The run-time `TSendBuffer::New(const uint32_t BufferSize)`. `NewRaw i` is what
`NewRaw()` of the pool of class `i` returns, `none` for the null pointer. -/
def TSendBuffer.New (c : SendBufferSizes) (NewRaw : Nat → Option SendBuffer) (BufferSize : Nat) :
    Acquired SendBuffer :=
  if BufferSize ≤ c.CSize1ServerSendBufferSize then TSEND_BUFFER_DESTROY_CALLBACK 1 (NewRaw 1) 1
  else if BufferSize ≤ c.CSize2ServerSendBufferSize then
    TSEND_BUFFER_DESTROY_CALLBACK 2 (NewRaw 2) 2
  else if BufferSize ≤ c.CSize3ServerSendBufferSize then
    TSEND_BUFFER_DESTROY_CALLBACK 3 (NewRaw 3) 3
  else if BufferSize ≤ c.CSize4ServerSendBufferSize then
    TSEND_BUFFER_DESTROY_CALLBACK 4 (NewRaw 4) 4
  else if BufferSize ≤ c.CSize5ServerSendBufferSize then
    TSEND_BUFFER_DESTROY_CALLBACK 5 (NewRaw 5) 5
  else Acquired.empty

/-- The compile-time `TSendBuffer::New<BufferSize>()`: the same chain with `if constexpr`; the
last branch is a `static_assert(false, ...)`, so that a size above the largest class has no
instantiation (`none`). -/
def TSendBuffer.NewT (c : SendBufferSizes) (NewRaw : Nat → Option SendBuffer) (BufferSize : Nat) :
    Option (Acquired SendBuffer) :=
  if BufferSize ≤ c.CSize1ServerSendBufferSize then
    some (TSEND_BUFFER_DESTROY_CALLBACK 1 (NewRaw 1) 1)
  else if BufferSize ≤ c.CSize2ServerSendBufferSize then
    some (TSEND_BUFFER_DESTROY_CALLBACK 2 (NewRaw 2) 2)
  else if BufferSize ≤ c.CSize3ServerSendBufferSize then
    some (TSEND_BUFFER_DESTROY_CALLBACK 3 (NewRaw 3) 3)
  else if BufferSize ≤ c.CSize4ServerSendBufferSize then
    some (TSEND_BUFFER_DESTROY_CALLBACK 4 (NewRaw 4) 4)
  else if BufferSize ≤ c.CSize5ServerSendBufferSize then
    some (TSEND_BUFFER_DESTROY_CALLBACK 5 (NewRaw 5) 5)
  else none

/-- The function `TRecvBuffer::New()`: `if (!NewBuffer) return nullptr;`, then the `Destroy`
callback that calls `Pool::Deallocate(NewBuffer)` is stored. The one pool has the number 0. -/
def TRecvBuffer.New (NewRaw : Option RecvBuffer) : Acquired RecvBuffer :=
  match NewRaw with
  | none => Acquired.empty
  | some b => Acquired.handle b 0 0

/-! ## SendBuffer: the array write -/

/-- The member template `Write(const Char(&Message)[N])`: `StringFullSize = N * sizeof(Char)`,
`memcpy_s((void*)GetFront(), StringFullSize, Message, StringFullSize)`, failure when the result
is not 0, otherwise `Position += StringFullSize` and success. `Message` is the byte string of
the array and `sz` is `sizeof(Char)`. There is no call of `CanFit`. -/
def SendBuffer.WriteArray (s : SendBuffer) (Message : List Nat) (N sz : Nat) :
    RStatus × SendBuffer :=
  if (memcpy_s s.Buffer s.GetFront (N * sz) Message (N * sz)).1 ≠ 0 then
    (RStatus.RFail, { s with Buffer := (memcpy_s s.Buffer s.GetFront (N * sz) Message (N * sz)).2 })
  else
    (RStatus.RSuccess,
     { s with Buffer := (memcpy_s s.Buffer s.GetFront (N * sz) Message (N * sz)).2,
              Position := (s.Position + N * sz) % U32 })

/-! ## Packet headers -/

/-- The enumeration `EBroadcastType : int32_t`. -/
inductive EBroadcastType where
  | EBroadcastType_All
  | EBroadcastType_Visible
  | EBroadcastType_Area
  | EBroadcastType_World
  | EBroadcastType_Party
  | EBroadcastType_Raid
  | EBroadcastType_Enemies
  | EBroadcastType_Allies
  | EBroadcastType_Friends
  | EBroadcastType_Guild
  | EBroadcastType_DespawnPlayer
  | EBroadcastType_MAX
  deriving DecidableEq, Repr

/-- The value of an enumerator of `EBroadcastType`. -/
def EBroadcastType.toNat : EBroadcastType → Nat
  | .EBroadcastType_All => 0
  | .EBroadcastType_Visible => 1
  | .EBroadcastType_Area => 2
  | .EBroadcastType_World => 3
  | .EBroadcastType_Party => 4
  | .EBroadcastType_Raid => 5
  | .EBroadcastType_Enemies => 6
  | .EBroadcastType_Allies => 7
  | .EBroadcastType_Friends => 8
  | .EBroadcastType_Guild => 9
  | .EBroadcastType_DespawnPlayer => 10
  | .EBroadcastType_MAX => 11

/-- Bytes of `EBroadcastType`, an enumeration over `int32_t`. -/
def sizeofEBroadcastType : Nat := 4

/-- The enumerator `Opcode_BROADCAST_PACKET = 2` of `Opcode.h`; the enumeration `Opcode` has the
underlying type `TPacketOpcode`. -/
def Opcode_BROADCAST_PACKET : Nat := 2

/-- The function `TSendBuffer::WriteBoradcastPacketHeader(Buffer, Type)`:
`Buffer->Write((TPacketSize)0); Buffer->Write(Opcode_BROADCAST_PACKET); Buffer->Write(Type);`. -/
def TSendBuffer.WriteBoradcastPacketHeader (Buffer : SendBuffer)
    (BroadcastType : EBroadcastType) : SendBuffer :=
  ((Buffer.WriteT sizeofTPacketSize 0).WriteT sizeofTPacketOpcode
    Opcode_BROADCAST_PACKET).WriteT sizeofEBroadcastType BroadcastType.toNat

/-- The function `TSendBuffer::AllocBroadcastPacket<BufferSize>(Type)`, given what
`New<BufferSize>()` did: `WriteBoradcastPacketHeader(Buffer.Get(), Type); return Buffer;`, with
no test of the handle, so that anything but a handle ends in an access through the null
pointer. `BroadcastType` is the parameter `Type`. -/
def TSendBuffer.AllocBroadcastPacket (Buffer : Acquired SendBuffer)
    (BroadcastType : EBroadcastType) : Acquired SendBuffer :=
  match Buffer with
  | Acquired.handle b drawnFrom Pool =>
    Acquired.handle (TSendBuffer.WriteBoradcastPacketHeader b BroadcastType) drawnFrom Pool
  | Acquired.empty => Acquired.nullAccess 0
  | Acquired.nullAccess drawnFrom => Acquired.nullAccess drawnFrom

/-! ## TStream: back-patch references -/

/-- The layout of `TPacketObjectArrayHeader`, a type declared outside `Buffer.h`: its size,
the offset and the size of its member `Count`, and the bytes of a value-initialised header. -/
structure ArrayHeaderLayout where
  size : Nat
  countOffset : Nat
  countSize : Nat
  init : List Nat

namespace TStream

/-- The member `GetFront()` of the base: `Buffer + Position`, as an offset from the owner's
`Buffer[0]`. -/
def GetFront (st : TStream) : Nat := st.Buffer + st.Position

/-- The member `SubmitOffset(TStreamOffsetType& Target)`:
`Target = (TStreamOffsetType)GetPosition();`. `Target` is the place the reference names, `w` is
`sizeof(TStreamOffsetType)`, a type declared outside `Buffer.h`. -/
def SubmitOffset (st : TStream) (owner : SendBuffer) (w Target : Nat) : SendBuffer :=
  { owner with Buffer := storeBytes owner.Buffer Target (leBytes w (st.GetPosition % 256 ^ w)) }

/-- The member `WriteStringRef()`: `Offset = *(TStreamOffsetType*)GetFront();
Write(TStreamOffsetType()); return Offset;`. Result: the place the returned reference names,
the stream and the owner. -/
def WriteStringRef (st : TStream) (owner : SendBuffer) (w : Nat) :
    Nat × TStream × SendBuffer :=
  (st.GetFront, st.WriteT owner w 0)

/-- Modelled from the spec: `IStream::WriteString(String, bWriteEmptyIfNull)` of the base class
stages the bytes it lays the string out in, `bytes`, at the cursor. -/
def WriteStringBase (st : TStream) (owner : SendBuffer) (bytes : List Nat) :
    TStream × SendBuffer :=
  st.Write owner bytes

/-- The member `WriteString(TStreamOffsetType& WriteBackOffset, const char* String, ...)`:
`SubmitOffset(WriteBackOffset); return IStream::WriteString(String, bWriteEmptyIfNull);`. -/
def WriteString (st : TStream) (owner : SendBuffer) (w WriteBackOffset : Nat)
    (bytes : List Nat) : TStream × SendBuffer :=
  st.WriteStringBase (st.SubmitOffset owner w WriteBackOffset) bytes

/-- The member `WriteArrayRef(TPacketSize ObjectCount)`:
`Header = *(TPacketObjectArrayHeader*)GetFront(); Write(TPacketObjectArrayHeader());
Header.Count = ObjectCount; return Header;`. Result: the place the returned reference names,
the stream and the owner. -/
def WriteArrayRef (st : TStream) (owner : SendBuffer) (L : ArrayHeaderLayout)
    (ObjectCount : Nat) : Nat × TStream × SendBuffer :=
  (st.GetFront,
   (st.Write owner L.init).1,
   { (st.Write owner L.init).2 with
       Buffer := storeBytes (st.Write owner L.init).2.Buffer (st.GetFront + L.countOffset)
         (leBytes L.countSize (ObjectCount % 256 ^ sizeofTPacketSize)) })

end TStream

/-- A reference is taken with `WriteStringRef()`, the byte strings `ws` are staged, and
`WriteString(ref, ...)` is called with a string laid out as `bytes`. -/
def refThenString (st : TStream) (owner : SendBuffer) (w : Nat) (ws : List (List Nat))
    (bytes : List Nat) : TStream × SendBuffer :=
  (stage ((st.WriteStringRef owner w).2.1, (st.WriteStringRef owner w).2.2) ws).1.WriteString
    (stage ((st.WriteStringRef owner w).2.1, (st.WriteStringRef owner w).2.2) ws).2 w
    (st.WriteStringRef owner w).1 bytes

/-! ## Memory.h: the pending-destroy flag -/

namespace MemoryResource

/-- The member `SetIsPendingDestroy(bool bValue, bool bNotify)`: `test_and_set` for true,
`clear` for false; the notification of waiting threads changes no member. -/
def SetIsPendingDestroy (r : MemoryResource) (bValue : Bool) (_bNotify : Bool) :
    MemoryResource :=
  if bValue then { r with bIsPendingDestroy := true } else { r with bIsPendingDestroy := false }

/-- The member `IsPendingDestroy()`. -/
def IsPendingDestroy (r : MemoryResource) : Bool := r.bIsPendingDestroy

/-- The member `ResetResource()`: `_InterlockedExchange_HLERelease(&RefCount, 1);
SetIsPendingDestroy(false);`, the second argument being the default `true`. -/
def ResetResource (r : MemoryResource) : MemoryResource :=
  SetIsPendingDestroy { r with RefCount := 1 } false true

end MemoryResource

/-! ## Memory.h: MemoryResource under concurrent calls -/

/-- A thread that uses the resource: `held` is the number of references to the resource the
thread holds; `adding` is `some RefCount` while the thread is inside the atomic `AddReference()`,
with `RefCount` the value of its local variable of that name, and `none` between calls. -/
structure ThreadState where
  held : Nat
  adding : Option Nat
  deriving DecidableEq, Repr

/-- One `MemoryResource<true>` shared by the threads `threads`, with the log of destroy actions
that have run. -/
structure Conc where
  res : MemoryResource
  log : List DestroyEvent
  threads : List ThreadState
  deriving DecidableEq, Repr

/-- The atomic steps of thread `t`. `load`: the thread enters `AddReference()` and executes
`long RefCount = __iso_volatile_load32(&VolatileRefCount)`. `cas`: the thread, inside
`AddReference()`, evaluates the loop condition `RefCount != 0` and, when it holds, one round of
the loop body with its `_InterlockedCompareExchange`. `release`: the thread executes one call of
`ReleaseReferenceAndDestroy()`, whose only access to shared memory is `_InterlockedDecrement`. -/
inductive Event where
  | load (t : Nat)
  | cas (t : Nat)
  | release (t : Nat)
  deriving DecidableEq, Repr

/-- The number of references held by all threads together. -/
def totalHeld (threads : List ThreadState) : Nat := (threads.map ThreadState.held).sum

/-- The threads at the start: thread `t` holds `held[t]` references and is between calls. -/
def Conc.start (res : MemoryResource) (held : List Nat) : Conc :=
  { res := res, log := [], threads := held.map (fun h => { held := h, adding := none }) }

/-- One atomic step of thread `t` on the shared resource; `none` when the thread cannot take the
step. A thread enters `AddReference()` only while it holds a reference, and releases only a
reference it holds; a thread inside `AddReference()` starts no other call.

* `load t`: the local `RefCount` becomes the current value of the member.
* `cas t`: with local `RefCount != 0`, `OldValue = _InterlockedCompareExchange(&VolatileRefCount,
  RefCount + 1, RefCount)`; when `OldValue == RefCount` the call returns and the thread holds one
  reference more, otherwise `RefCount = OldValue` and the thread stays in the loop. With local
  `RefCount == 0` the loop ends and the call returns with nothing added.
* `release t`: `ReleaseReferenceAndDestroy()` of the atomic instantiation on the current value of
  the member; the thread holds one reference less. -/
def step (s : Conc) : Event → Option Conc
  | Event.load t =>
    match s.threads[t]? with
    | some th =>
      if th.adding = none ∧ 1 ≤ th.held then
        some { s with threads := s.threads.set t { th with adding := some s.res.RefCount } }
      else none
    | none => none
  | Event.cas t =>
    match s.threads[t]? with
    | some th =>
      match th.adding with
      | some RefCount =>
        if RefCount ≠ 0 then
          if (InterlockedCompareExchange s.res.RefCount ((RefCount + 1) % U32) RefCount).1 =
              RefCount then
            some (Conc.mk
              { s.res with RefCount :=
                (InterlockedCompareExchange s.res.RefCount ((RefCount + 1) % U32) RefCount).2 }
              s.log
              (s.threads.set t { held := th.held + 1, adding := none }))
          else
            some (Conc.mk
              { s.res with RefCount :=
                (InterlockedCompareExchange s.res.RefCount ((RefCount + 1) % U32) RefCount).2 }
              s.log
              (s.threads.set t { th with adding :=
                (some (InterlockedCompareExchange s.res.RefCount ((RefCount + 1) % U32)
                  RefCount).1) }))
        else some { s with threads := s.threads.set t { th with adding := none } }
      | none => none
    | none => none
  | Event.release t =>
    match s.threads[t]? with
    | some th =>
      if th.adding = none ∧ 1 ≤ th.held then
        some (Conc.mk
          (MemoryResource.ReleaseReferenceAndDestroy true s.res s.log).2.1
          (MemoryResource.ReleaseReferenceAndDestroy true s.res s.log).2.2
          (s.threads.set t { th with held := th.held - 1 }))
      else none
    | none => none

/-- A schedule: the steps of the threads in the order in which they take effect; `none` when
some step of the schedule cannot be taken. -/
def run (s : Conc) : List Event → Option Conc
  | [] => some s
  | e :: es => (step s e).bind (fun s1 => run s1 es)

/-- The invariant of the schedules: the threads hold at most `2^32` references together, the
member `RefCount` is their number in 32 bits, a thread inside `AddReference()` holds a reference,
and the destroy action has run, once, exactly when no reference is held any more. -/
def ConcInv (s : Conc) : Prop :=
  totalHeld s.threads ≤ U32 ∧ s.res.RefCount = totalHeld s.threads % U32 ∧
  (∀ th ∈ s.threads, th.adding ≠ none → 1 ≤ th.held) ∧
  s.log = if totalHeld s.threads = 0 then [destroyAction s.res] else []

/-! ## Lemmas on memory -/

theorem storeBytes_below (m : Mem) (off : Nat) (data : List Nat) (i : Nat) (h : i < off) :
    storeBytes m off data i = m i := by
  unfold storeBytes
  rw [if_neg]
  omega

theorem storeBytes_above (m : Mem) (off : Nat) (data : List Nat) (i : Nat)
    (h : off + data.length ≤ i) : storeBytes m off data i = m i := by
  unfold storeBytes
  rw [if_neg]
  omega

theorem storeBytes_at (m : Mem) (off : Nat) (data : List Nat) (i : Nat)
    (h : i < data.length) : storeBytes m off data (off + i) = data.getD i 0 := by
  unfold storeBytes
  rw [if_pos (by omega)]
  congr 1
  omega

theorem storeBytes_nil (m : Mem) (off : Nat) : storeBytes m off [] = m := by
  funext i
  unfold storeBytes
  rw [if_neg]
  simp

theorem length_loadBytes (m : Mem) (off n : Nat) : (loadBytes m off n).length = n := by
  simp [loadBytes]

theorem getD_loadBytes (m : Mem) (off n i : Nat) (h : i < n) :
    (loadBytes m off n).getD i 0 = m (off + i) := by
  simp [loadBytes, List.getD_eq_getElem?_getD, List.getElem?_map, List.getElem?_range h]

theorem loadBytes_congr (m m' : Mem) (off n : Nat)
    (h : ∀ i, i < n → m (off + i) = m' (off + i)) : loadBytes m off n = loadBytes m' off n := by
  unfold loadBytes
  apply List.map_congr_left
  intro i hi
  exact h i (List.mem_range.mp hi)

theorem loadBytes_add (m : Mem) (off a b : Nat) :
    loadBytes m off (a + b) = loadBytes m off a ++ loadBytes m (off + a) b := by
  unfold loadBytes
  rw [List.range_add, List.map_append, List.map_map]
  congr 1
  apply List.map_congr_left
  intro i _
  simp [Nat.add_assoc]

theorem loadBytes_storeBytes (m : Mem) (off : Nat) (data : List Nat) :
    loadBytes (storeBytes m off data) off data.length = data := by
  apply List.ext_getElem
  · simp [loadBytes]
  · intro i h1 h2
    have hi : i < data.length := h2
    simp only [loadBytes, List.getElem_map, List.getElem_range]
    rw [storeBytes_at m off data i hi]
    simp [List.getD_eq_getElem?_getD, List.getElem?_eq_getElem hi]

theorem length_leBytes (w v : Nat) : (leBytes w v).length = w := by
  induction w generalizing v with
  | zero => rfl
  | succ w ih => simp [leBytes, ih]

theorem leValue_leBytes (w v : Nat) : leValue (leBytes w v) = v % 256 ^ w := by
  induction w generalizing v with
  | zero => simp [leBytes, leValue, Nat.mod_one]
  | succ w ih =>
    simp only [leBytes, leValue, ih]
    rw [pow_succ, Nat.mul_comm (256 ^ w) 256, Nat.mod_mul]

/-! ## SendBuffer: the bounded write -/

theorem SendBuffer.getRemaining_eq (s : SendBuffer) (hC : s.BufferSize < U32)
    (hp : s.Position ≤ s.BufferSize) : s.GetRemaining = s.BufferSize - s.Position := by
  unfold SendBuffer.GetRemaining U32 at *
  omega

theorem SendBuffer.write_fits (s : SendBuffer) (data : List Nat) (hC : s.BufferSize < U32)
    (h : s.Position + data.length ≤ s.BufferSize) :
    s.Write data data.length =
      (RStatus.RSuccess, { s with Buffer := storeBytes s.Buffer s.Position data,
                                  Position := s.Position + data.length }) := by
  have hrem := s.getRemaining_eq hC (by omega)
  have hlt : data.length < U32 := by omega
  have hmod : data.length % U32 = data.length := Nat.mod_eq_of_lt hlt
  have hpos : (s.Position + data.length) % U32 = s.Position + data.length :=
    Nat.mod_eq_of_lt (by omega)
  have hfit : s.CanFit (data.length % U32) = true := by
    simp only [SendBuffer.CanFit, hmod, hrem, decide_eq_true_eq]
    omega
  unfold SendBuffer.Write
  simp only [hfit, Bool.not_true, Bool.false_eq_true, if_false, hpos]
  by_cases h0 : data.length = 0
  · have hnil : data = [] := List.length_eq_zero.mp h0
    subst hnil
    simp [memcpy_s, storeBytes_nil]
  · have hnot : ¬ s.GetRemaining < data.length := by rw [hrem]; omega
    simp [memcpy_s, h0, hnot, SendBuffer.GetFront, List.take_length]

theorem length_repr (op : WriteOp) : op.repr.length = op.size := by
  cases op with
  | bytes data => rfl
  | value w v => exact length_leBytes w v

theorem applyWrites_length (ops : List WriteOp) (s : SendBuffer) :
    (applyWrites s ops).1.length = (ops.filter WriteOp.isBounded).length := by
  induction ops generalizing s with
  | nil => rfl
  | cons op ops ih =>
    cases op with
    | bytes data => simp [applyWrites, WriteOp.isBounded, ih]
    | value w v => simp [applyWrites, WriteOp.isBounded, ih]

theorem applyWrites_spec (ops : List WriteOp) (s : SendBuffer) (hC : s.BufferSize < U32)
    (h : s.Position + totalSize ops ≤ s.BufferSize) :
    (∀ x ∈ (applyWrites s ops).1, x = RStatus.RSuccess) ∧
    (applyWrites s ops).2.Position = s.Position + totalSize ops ∧
    (applyWrites s ops).2.BufferSize = s.BufferSize ∧
    loadBytes (applyWrites s ops).2.Buffer s.Position (totalSize ops) = concatWrites ops ∧
    (∀ i, i < s.Position → (applyWrites s ops).2.Buffer i = s.Buffer i) := by
  induction ops generalizing s with
  | nil =>
    simp [applyWrites, totalSize, concatWrites, loadBytes]
  | cons op ops ih =>
    have hsz : totalSize (op :: ops) = op.size + totalSize ops := rfl
    rw [hsz] at h
    -- the state after the first write, the same for both kinds of write
    let s1 : SendBuffer :=
      { s with Buffer := storeBytes s.Buffer s.Position op.repr,
               Position := s.Position + op.size }
    have hs1C : s1.BufferSize < U32 := hC
    have hs1 : s1.Position + totalSize ops ≤ s1.BufferSize := by
      show s.Position + op.size + totalSize ops ≤ s.BufferSize
      omega
    obtain ⟨ih1, ih2, ih3, ih4, ih5⟩ := ih s1 hs1C hs1
    have key : (applyWrites s (op :: ops)).2 = (applyWrites s1 ops).2 ∧
        ∀ x ∈ (applyWrites s (op :: ops)).1, x = RStatus.RSuccess := by
      cases op with
      | bytes data =>
        have hw := s.write_fits data hC (by simp only [WriteOp.size] at h; omega)
        simp only [applyWrites, hw]
        refine ⟨rfl, ?_⟩
        intro x hx
        rcases List.mem_cons.mp hx with hx | hx
        · exact hx
        · exact ih1 x hx
      | value w v =>
        have hpos : (s.Position + w) % U32 = s.Position + w :=
          Nat.mod_eq_of_lt (by simp only [WriteOp.size] at h; omega)
        have : s.WriteT w v = s1 := by
          simp only [SendBuffer.WriteT, SendBuffer.GetFront, hpos, s1, WriteOp.repr,
            WriteOp.size]
        simp only [applyWrites, this]
        exact ⟨trivial, ih1⟩
    rw [key.1]
    refine ⟨key.2, ?_, ih3, ?_, ?_⟩
    · rw [ih2, hsz]
      show s.Position + op.size + totalSize ops = _
      omega
    · rw [hsz, loadBytes_add]
      show _ = op.repr ++ concatWrites ops
      refine congrArg₂ (· ++ ·) ?_ ih4
      rw [loadBytes_congr _ s1.Buffer]
      · have := loadBytes_storeBytes s.Buffer s.Position op.repr
        rw [length_repr] at this
        exact this
      · intro i hi
        exact ih5 (s.Position + i) (by show s.Position + i < s.Position + op.size; omega)
    · intro i hi
      rw [ih5 i (by show i < s.Position + op.size; omega)]
      exact storeBytes_below _ _ _ _ hi

theorem SendBuffer.write_exceeds (s : SendBuffer) (data : List Nat) (Size : Nat)
    (hS : Size < U32) (h : s.GetRemaining < Size) : s.Write data Size = (RStatus.RFail, s) := by
  have hfit : s.CanFit (Size % U32) = false := by
    simp only [SendBuffer.CanFit, Nat.mod_eq_of_lt hS, decide_eq_false_iff_not]
    omega
  simp [SendBuffer.Write, hfit]

theorem SendBuffer.write_position_le (s : SendBuffer) (data : List Nat) (Size : Nat)
    (hC : s.BufferSize < U32) (hp : s.Position ≤ s.BufferSize) :
    (s.Write data Size).2.Position ≤ s.BufferSize ∧
    (s.Write data Size).2.BufferSize = s.BufferSize := by
  have hrem := s.getRemaining_eq hC hp
  unfold SendBuffer.Write
  by_cases hfit : s.CanFit (Size % U32) = true
  · simp only [hfit, Bool.not_true, Bool.false_eq_true, if_false]
    unfold memcpy_s
    by_cases h0 : Size = 0
    · subst h0
      simp only [if_true, ne_eq, not_true_eq_false, if_false, Nat.add_zero]
      rw [Nat.mod_eq_of_lt (by omega)]
      exact ⟨hp, trivial⟩
    · by_cases hlt : s.GetRemaining < Size
      · simp [h0, hlt, ERANGE, hp]
      · simp only [h0, hlt, if_false, ne_eq, not_true_eq_false]
        refine ⟨?_, trivial⟩
        have : s.Position + Size ≤ s.BufferSize := by omega
        rw [Nat.mod_eq_of_lt (by omega)]
        exact this
  · simp [hfit, hp]

/-! ## TStream: staged writes -/

theorem stage_spec (ws : List (List Nat)) (st : TStream) (owner : SendBuffer) :
    (runOps (st, owner) (ws.map StreamOp.write)).1.Position = st.Position + ws.flatten.length ∧
    (runOps (st, owner) (ws.map StreamOp.write)).1.Buffer = st.Buffer ∧
    (runOps (st, owner) (ws.map StreamOp.write)).1.Size = st.Size ∧
    (runOps (st, owner) (ws.map StreamOp.write)).1.Stream = st.Stream ∧
    (runOps (st, owner) (ws.map StreamOp.write)).2.Position = owner.Position ∧
    (runOps (st, owner) (ws.map StreamOp.write)).2.BufferSize = owner.BufferSize ∧
    loadBytes (runOps (st, owner) (ws.map StreamOp.write)).2.Buffer (st.Buffer + st.Position)
      ws.flatten.length = ws.flatten ∧
    (∀ i, i < st.Buffer + st.Position →
      (runOps (st, owner) (ws.map StreamOp.write)).2.Buffer i = owner.Buffer i) := by
  induction ws generalizing st owner with
  | nil => simp [runOps, loadBytes]
  | cons d ws ih =>
    obtain ⟨h1, h2, h3, h4, h5, h6, h7, h8⟩ := ih (st.Write owner d).1 (st.Write owner d).2
    have hrun : runOps (st, owner) ((d :: ws).map StreamOp.write) =
        runOps ((st.Write owner d).1, (st.Write owner d).2) (ws.map StreamOp.write) := rfl
    have hP : (st.Write owner d).1.Position = st.Position + d.length := rfl
    have hB : (st.Write owner d).1.Buffer = st.Buffer := rfl
    have hM : (st.Write owner d).2.Buffer = storeBytes owner.Buffer (st.Buffer + st.Position) d :=
      rfl
    rw [hrun]
    rw [hP] at h1 h7 h8
    rw [hB] at h7 h8
    refine ⟨?_, h2, h3, h4, h5, h6, ?_, ?_⟩
    · rw [h1, List.flatten_cons, List.length_append]; omega
    · rw [List.flatten_cons, List.length_append, loadBytes_add]
      refine congrArg₂ (· ++ ·) ?_ ?_
      · rw [loadBytes_congr _ (st.Write owner d).2.Buffer]
        · rw [hM]; exact loadBytes_storeBytes _ _ _
        · intro i hi
          exact h8 _ (by omega)
      · rw [← Nat.add_assoc] at h7
        exact h7
    · intro i hi
      rw [h8 i (by omega), hM]
      exact storeBytes_below _ _ _ _ hi

/-! ## TStream: commit -/

theorem TStream.commit_eq (st : TStream) (owner : SendBuffer) (Rebase : Bool)
    (h : owner.Position + st.Position < U32) :
    st.Commit owner Rebase =
      (if Rebase then { st with Buffer := st.Buffer + st.Position, Position := 0 } else st,
       { owner with Position := owner.Position + st.Position }) := by
  have h1 : st.Position % U32 = st.Position := Nat.mod_eq_of_lt (by omega)
  have h2 : (owner.Position + st.Position) % U32 = owner.Position + st.Position :=
    Nat.mod_eq_of_lt h
  unfold TStream.Commit TStream.GetPosition
  cases Rebase <;> simp [h1, h2]

theorem TStream.commitPacket_eq (st : TStream) (owner : SendBuffer) (Rebase : Bool)
    (h : owner.Position + st.Position < U32) :
    st.CommitPacket owner Rebase =
      (if Rebase then { st with Buffer := st.Buffer + st.Position, Position := 0 } else st,
       { owner with
           Buffer := storeBytes owner.Buffer st.Buffer
             (leBytes sizeofTPacketSize (st.Position % 256 ^ sizeofTPacketSize)),
           Position := owner.Position + st.Position }) := by
  unfold TStream.CommitPacket
  have h' : (st.WriteAt owner sizeofTPacketSize
      (st.GetPosition % 256 ^ sizeofTPacketSize) 0).Position + st.Position < U32 := h
  rw [TStream.commit_eq st _ Rebase h']
  simp [TStream.WriteAt, TStream.GetPosition]

theorem runOp_inside (C : Nat) (hC : C < U32) (x : TStream × SendBuffer) (op : StreamOp)
    (ops : List StreamOp) (hinv : sessionInv C x) (h : opsInside x (op :: ops) = true) :
    sessionInv C (runOp x op) ∧ opsInside (runOp x op) ops = true := by
  obtain ⟨h1, h2, h3⟩ := hinv
  have hsum : x.2.Position + x.1.Position < U32 := by omega
  cases op with
  | write data =>
    simp only [opsInside, Bool.and_eq_true, decide_eq_true_eq] at h
    refine ⟨⟨h1, h2, ?_⟩, h.2⟩
    show x.1.Buffer + (x.1.Position + data.length) ≤ C
    omega
  | commit Rebase =>
    simp only [opsInside, Bool.and_eq_true] at h
    obtain ⟨hr, hrest⟩ := h
    subst hr
    refine ⟨?_, hrest⟩
    simp only [runOp, TStream.commit_eq _ _ _ hsum, sessionInv, if_true]
    exact ⟨h1, by omega, by omega⟩
  | commitPacket Rebase =>
    simp only [opsInside, Bool.and_eq_true] at h
    obtain ⟨hr, hrest⟩ := h
    subst hr
    refine ⟨?_, hrest⟩
    simp only [runOp, TStream.commitPacket_eq _ _ _ hsum, sessionInv, if_true]
    exact ⟨h1, by omega, by omega⟩
  | rollback =>
    simp only [opsInside] at h
    refine ⟨⟨h1, h2, ?_⟩, h⟩
    show x.1.Buffer + 0 ≤ C
    omega

theorem runOps_inside (C : Nat) (hC : C < U32) (ops : List StreamOp) (x : TStream × SendBuffer)
    (hinv : sessionInv C x) (h : opsInside x ops = true) : sessionInv C (runOps x ops) := by
  induction ops generalizing x with
  | nil => exact hinv
  | cons op ops ih =>
    obtain ⟨h1, h2⟩ := runOp_inside C hC x op ops hinv h
    exact ih (runOp x op) h1 h2

theorem dtor_inside (C : Nat) (hC : C < U32) (x : TStream × SendBuffer)
    (hinv : sessionInv C x) :
    (x.1.dtor x.2).2.Position ≤ C ∧ (x.1.dtor x.2).2.BufferSize = C := by
  obtain ⟨h1, h2, h3⟩ := hinv
  have hsum : x.2.Position + x.1.Position < U32 := by omega
  unfold TStream.dtor
  by_cases hs : x.1.Stream = true
  · simp only [hs, if_true, TStream.commit_eq _ _ _ hsum]
    exact ⟨by omega, h1⟩
  · simp only [hs, Bool.false_eq_true, if_false]
    exact ⟨by omega, h1⟩

theorem toStream_inv (s : SendBuffer) (flag : Bool) (hp : s.Position ≤ s.BufferSize) : sessionInv s.BufferSize (s.ToStream flag, s) := by
  refine ⟨rfl, rfl, ?_⟩
  show s.Position + 0 ≤ s.BufferSize
  omega

theorem runSteps_inside (steps : List Step) (s : SendBuffer) (hC : s.BufferSize < U32)
    (hp : s.Position ≤ s.BufferSize) (h : stepsInside s steps = true) :
    (runSteps s steps).Position ≤ s.BufferSize ∧
    (runSteps s steps).BufferSize = s.BufferSize := by
  induction steps generalizing s with
  | nil => exact ⟨hp, rfl⟩
  | cons st sts ih =>
    cases st with
    | write data =>
      simp only [stepsInside] at h
      obtain ⟨w1, w2⟩ := s.write_position_le data data.length hC hp
      have hs : runStep s (Step.write data) = (s.Write data data.length).2 := rfl
      rw [hs] at h
      obtain ⟨r1, r2⟩ := ih (s.Write data data.length).2 (by rw [w2]; exact hC)
        (by rw [w2]; exact w1) h
      rw [w2] at r1 r2
      exact ⟨r1, r2⟩
    | session flag ops =>
      simp only [stepsInside, Bool.and_eq_true] at h
      obtain ⟨ho, hrest⟩ := h
      have hinv := runOps_inside s.BufferSize hC ops _ (toStream_inv s flag hp) ho
      obtain ⟨d1, d2⟩ := dtor_inside s.BufferSize hC _ hinv
      have hs : runStep s (Step.session flag ops) =
          ((runOps (s.ToStream flag, s) ops).1.dtor (runOps (s.ToStream flag, s) ops).2).2 :=
        rfl
      rw [hs] at hrest
      obtain ⟨r1, r2⟩ := ih _ (by rw [d2]; exact hC) (by rw [d2]; exact d1) hrest
      rw [d2] at r1 r2
      exact ⟨r1, r2⟩

/-! ## TStream: moves -/

theorem TStream.moveCtor_source (Other : TStream) :
    (TStream.moveCtor Other).2.Stream = Other.Stream ∧
    (TStream.moveCtor Other).2.Position = 0 ∧
    (TStream.moveCtor Other).1.Position = Other.Position := ⟨rfl, rfl, rfl⟩

theorem TStream.moveAssign_source (dest Other : TStream) :
    (TStream.moveAssign dest Other).2.Stream = false ∧
    (TStream.moveAssign dest Other).1.Stream = Other.Stream ∧
    (TStream.moveAssign dest Other).1.Position = Other.Position := ⟨rfl, rfl, rfl⟩

/-! ## MemoryResource: reference counting -/

theorem addReference_atomic_zero (fuel : Nat) (r : MemoryResource) (h : r.RefCount = 0) :
    MemoryResource.AddReference true fuel r = some r := by
  cases r with
  | mk d c p =>
    simp only at h
    subst h
    cases fuel <;> simp [MemoryResource.AddReference, AddReferenceLoop]

theorem addReference_atomic_pos (fuel : Nat) (r : MemoryResource) (h0 : 0 < r.RefCount)
    (h1 : r.RefCount + 1 < U32) :
    MemoryResource.AddReference true (fuel + 1) r =
      some { r with RefCount := r.RefCount + 1 } := by
  have hne : r.RefCount ≠ 0 := by omega
  simp [MemoryResource.AddReference, AddReferenceLoop, InterlockedCompareExchange, hne,
    Nat.mod_eq_of_lt h1]

theorem addReference_nonatomic (fuel : Nat) (r : MemoryResource) (h1 : r.RefCount + 1 < U32) :
    MemoryResource.AddReference false fuel r = some { r with RefCount := r.RefCount + 1 } := by
  simp [MemoryResource.AddReference, Nat.mod_eq_of_lt h1]

theorem addReference_pos (bAtomicRef : Bool) (fuel : Nat) (r : MemoryResource)
    (h0 : 0 < r.RefCount) (h1 : r.RefCount + 1 < U32) :
    MemoryResource.AddReference bAtomicRef (fuel + 1) r =
      some { r with RefCount := r.RefCount + 1 } := by
  cases bAtomicRef
  · exact addReference_nonatomic _ r h1
  · exact addReference_atomic_pos fuel r h0 h1

theorem releaseReference_eq (bAtomicRef : Bool) (r : MemoryResource) :
    MemoryResource.ReleaseReference bAtomicRef r =
      (decide ((r.RefCount + U32 - 1) % U32 = 0),
       { r with RefCount := (r.RefCount + U32 - 1) % U32 }) := by
  cases bAtomicRef <;> simp [MemoryResource.ReleaseReference, InterlockedDecrement]

theorem releaseReference_succ (bAtomicRef : Bool) (r : MemoryResource) (m : Nat)
    (h : r.RefCount = m + 1) (hlt : m + 1 < U32) :
    MemoryResource.ReleaseReference bAtomicRef r = (decide (m = 0), { r with RefCount := m }) := by
  have hm : (r.RefCount + U32 - 1) % U32 = m := by
    rw [h]
    have : m + 1 + U32 - 1 = m + U32 := by omega
    rw [this, Nat.add_mod_right]
    exact Nat.mod_eq_of_lt (by omega)
  rw [releaseReference_eq, hm]

theorem releaseAndDestroy_succ (bAtomicRef : Bool) (r : MemoryResource) (m : Nat)
    (log : List DestroyEvent) (h : r.RefCount = m + 1) (hlt : m + 1 < U32) :
    MemoryResource.ReleaseReferenceAndDestroy bAtomicRef r log =
      (decide (m = 0), { r with RefCount := m },
       if m = 0 then log ++ [destroyAction r] else log) := by
  unfold MemoryResource.ReleaseReferenceAndDestroy
  rw [releaseReference_succ bAtomicRef r m h hlt]
  by_cases hm : m = 0
  · subst hm
    cases hd : r.Destroy <;> simp [destroyAction, hd]
  · simp [hm]

theorem releaseAndDestroyN_spec (bAtomicRef : Bool) (n : Nat) (r : MemoryResource)
    (log : List DestroyEvent) (h : r.RefCount = n + 1) (hlt : n + 1 < U32) :
    releaseAndDestroyN bAtomicRef (n + 1) r log =
      (List.replicate n false ++ [true], { r with RefCount := 0 },
       log ++ [destroyAction r]) := by
  induction n generalizing r with
  | zero =>
    simp [releaseAndDestroyN, releaseAndDestroy_succ bAtomicRef r 0 log h hlt]
  | succ n ih =>
    have hstep := releaseAndDestroy_succ bAtomicRef r (n + 1) log h hlt
    have hrec := ih { r with RefCount := n + 1 } rfl (by omega)
    rw [releaseAndDestroyN, hstep]
    simp only [Nat.add_one_ne_zero, decide_False, if_false]
    rw [hrec]
    simp [List.replicate_succ, destroyAction]

theorem addReferences_spec (bAtomicRef : Bool) (fuel T : Nat) (r : MemoryResource)
    (h0 : 0 < r.RefCount) (h1 : r.RefCount + T < U32) :
    addReferences bAtomicRef (fuel + 1) T r = some { r with RefCount := r.RefCount + T } := by
  induction T generalizing r with
  | zero => simp [addReferences]
  | succ T ih =>
    rw [addReferences, addReference_pos bAtomicRef fuel r h0 (by omega)]
    simp only [Option.some_bind]
    rw [ih _ (by show 0 < r.RefCount + 1; omega) (by show r.RefCount + 1 + T < U32; omega)]
    simp only [Option.some.injEq]
    show MemoryResource.mk _ _ _ = MemoryResource.mk _ _ _
    congr 1
    omega

theorem releaseReferences_spec (bAtomicRef : Bool) (T : Nat) (r : MemoryResource)
    (h0 : T ≤ r.RefCount) (h1 : r.RefCount < U32) :
    releaseReferences bAtomicRef T r = { r with RefCount := r.RefCount - T } := by
  induction T generalizing r with
  | zero => simp [releaseReferences]
  | succ T ih =>
    have hs := releaseReference_succ bAtomicRef r (r.RefCount - 1) (by omega) (by omega)
    rw [releaseReferences, hs]
    rw [ih _ (by show T ≤ r.RefCount - 1; omega) (by show r.RefCount - 1 < U32; omega)]
    show MemoryResource.mk _ (r.RefCount - 1 - T) _ = MemoryResource.mk _ (r.RefCount - (T + 1)) _
    congr 1
    omega

theorem releaseAndDestroyN_before (bAtomicRef : Bool) (m : Nat) (r : MemoryResource)
    (log : List DestroyEvent) (h : m < r.RefCount) (hlt : r.RefCount < U32) :
    releaseAndDestroyN bAtomicRef m r log =
      (List.replicate m false, { r with RefCount := r.RefCount - m }, log) := by
  induction m generalizing r with
  | zero => simp [releaseAndDestroyN]
  | succ m ih =>
    have hstep := releaseAndDestroy_succ bAtomicRef r (r.RefCount - 1) log (by omega) (by omega)
    have hne : r.RefCount - 1 ≠ 0 := by omega
    rw [releaseAndDestroyN, hstep]
    simp only [hne, decide_False, if_false]
    rw [ih _ (by show m < r.RefCount - 1; omega) (by show r.RefCount - 1 < U32; omega)]
    have e : r.RefCount - 1 - m = r.RefCount - (m + 1) := by omega
    show (_, MemoryResource.mk _ (r.RefCount - 1 - m) _, _) = _
    rw [e]
    rfl

/-! ## MemoryBlockBase and acquisition -/

theorem canFit_no_wrap (ULONG : Nat) (b : MemoryBlockBase) (Length StartOffset : Nat)
    (h : Length + StartOffset < ULONG) :
    (b.CanFit ULONG Length StartOffset = none ↔ b.BlockSize < StartOffset + Length) ∧
    (¬ b.BlockSize < StartOffset + Length →
      b.CanFit ULONG Length StartOffset = some (b.Block + StartOffset)) := by
  unfold MemoryBlockBase.CanFit
  rw [Nat.mod_eq_of_lt h, Nat.add_comm StartOffset Length]
  by_cases hb : b.BlockSize < Length + StartOffset <;> simp [hb]

theorem new_above_largest (c : SendBufferSizes) (NewRaw : Nat → Option SendBuffer) (K : Nat)
    (h12 : c.CSize1ServerSendBufferSize < c.CSize2ServerSendBufferSize)
    (h23 : c.CSize2ServerSendBufferSize < c.CSize3ServerSendBufferSize)
    (h34 : c.CSize3ServerSendBufferSize < c.CSize4ServerSendBufferSize)
    (h45 : c.CSize4ServerSendBufferSize < c.CSize5ServerSendBufferSize)
    (hK : c.CSize5ServerSendBufferSize < K) : TSendBuffer.New c NewRaw K = Acquired.empty := by
  unfold TSendBuffer.New
  rw [if_neg (by omega), if_neg (by omega), if_neg (by omega), if_neg (by omega),
    if_neg (by omega)]

/-! ## SendBuffer: consecutive fixed-width writes -/

theorem SendBuffer.writeT_eq (s : SendBuffer) (w v : Nat) (h : s.Position + w < U32) :
    s.WriteT w v =
      { s with Buffer := storeBytes s.Buffer s.Position (leBytes w v),
               Position := s.Position + w } := by
  unfold SendBuffer.WriteT SendBuffer.GetFront
  rw [Nat.mod_eq_of_lt h]

theorem SendBuffer.writeT3 (s : SendBuffer) (w1 v1 w2 v2 w3 v3 : Nat)
    (h : s.Position + w1 + w2 + w3 < U32) :
    (((s.WriteT w1 v1).WriteT w2 v2).WriteT w3 v3).Position = s.Position + w1 + w2 + w3 ∧
    (((s.WriteT w1 v1).WriteT w2 v2).WriteT w3 v3).BufferSize = s.BufferSize ∧
    loadBytes (((s.WriteT w1 v1).WriteT w2 v2).WriteT w3 v3).Buffer s.Position w1 =
      leBytes w1 v1 ∧
    loadBytes (((s.WriteT w1 v1).WriteT w2 v2).WriteT w3 v3).Buffer (s.Position + w1) w2 =
      leBytes w2 v2 ∧
    loadBytes (((s.WriteT w1 v1).WriteT w2 v2).WriteT w3 v3).Buffer (s.Position + w1 + w2) w3 =
      leBytes w3 v3 := by
  have e1 := s.writeT_eq w1 v1 (by omega)
  have e2 := (s.WriteT w1 v1).writeT_eq w2 v2 (by rw [e1]; show s.Position + w1 + w2 < U32; omega)
  have e3 := ((s.WriteT w1 v1).WriteT w2 v2).writeT_eq w3 v3
    (by rw [e2, e1]; show s.Position + w1 + w2 + w3 < U32; omega)
  rw [e3, e2, e1]
  refine ⟨rfl, rfl, ?_, ?_, ?_⟩
  · show loadBytes (storeBytes (storeBytes (storeBytes s.Buffer s.Position (leBytes w1 v1))
      (s.Position + w1) (leBytes w2 v2)) (s.Position + w1 + w2) (leBytes w3 v3))
      s.Position w1 = _
    rw [loadBytes_congr _ (storeBytes s.Buffer s.Position (leBytes w1 v1))]
    · have hl := loadBytes_storeBytes s.Buffer s.Position (leBytes w1 v1)
      rw [length_leBytes] at hl
      exact hl
    · intro i hi
      rw [storeBytes_below _ _ _ _ (by omega), storeBytes_below _ _ _ _ (by omega)]
  · show loadBytes (storeBytes (storeBytes (storeBytes s.Buffer s.Position (leBytes w1 v1))
      (s.Position + w1) (leBytes w2 v2)) (s.Position + w1 + w2) (leBytes w3 v3))
      (s.Position + w1) w2 = _
    rw [loadBytes_congr _ (storeBytes (storeBytes s.Buffer s.Position (leBytes w1 v1))
      (s.Position + w1) (leBytes w2 v2))]
    · have hl := loadBytes_storeBytes (storeBytes s.Buffer s.Position (leBytes w1 v1))
        (s.Position + w1) (leBytes w2 v2)
      rw [length_leBytes] at hl
      exact hl
    · intro i hi
      rw [storeBytes_below _ _ _ _ (by omega)]
  · show loadBytes (storeBytes (storeBytes (storeBytes s.Buffer s.Position (leBytes w1 v1))
      (s.Position + w1) (leBytes w2 v2)) (s.Position + w1 + w2) (leBytes w3 v3))
      (s.Position + w1 + w2) w3 = _
    have hl := loadBytes_storeBytes (storeBytes (storeBytes s.Buffer s.Position (leBytes w1 v1))
      (s.Position + w1) (leBytes w2 v2)) (s.Position + w1 + w2) (leBytes w3 v3)
    rw [length_leBytes] at hl
    exact hl

theorem leBytes_zero (w : Nat) : leBytes w 0 = List.replicate w 0 := by
  induction w with
  | zero => rfl
  | succ w ih => simp [leBytes, ih, List.replicate_succ]

/-! ## TStream: the memory after a back-patch -/

theorem refThenString_buffer (st : TStream) (owner : SendBuffer) (w : Nat)
    (ws : List (List Nat)) (bytes : List Nat) :
    (refThenString st owner w ws bytes).2.Buffer =
      storeBytes
        (storeBytes
          (stage ((st.WriteStringRef owner w).2.1, (st.WriteStringRef owner w).2.2) ws).2.Buffer
          (st.Buffer + st.Position)
          (leBytes w ((st.Position + w + ws.flatten.length) % 256 ^ w)))
        (st.Buffer + (st.Position + w + ws.flatten.length)) bytes := by
  have r1 : (st.WriteStringRef owner w).1 = st.Buffer + st.Position := rfl
  have r2 : (st.WriteStringRef owner w).2.1.Position = st.Position + w := by
    show st.Position + (leBytes w 0).length = _
    rw [length_leBytes]
  have r2B : (st.WriteStringRef owner w).2.1.Buffer = st.Buffer := rfl
  obtain ⟨a1, a2, _, _, _, _, _, _⟩ := stage_spec ws (st.WriteStringRef owner w).2.1
    (st.WriteStringRef owner w).2.2
  rw [r2] at a1
  rw [r2B] at a2
  have hx : stage ((st.WriteStringRef owner w).2.1, (st.WriteStringRef owner w).2.2) ws =
      runOps ((st.WriteStringRef owner w).2.1, (st.WriteStringRef owner w).2.2)
        (ws.map StreamOp.write) := rfl
  show storeBytes (storeBytes _ (st.WriteStringRef owner w).1
    (leBytes w ((stage _ ws).1.Position % 256 ^ w)))
    ((stage _ ws).1.Buffer + (stage _ ws).1.Position) bytes = _
  rw [hx, a1, a2, r1]

theorem refThenString_placeholder (st : TStream) (owner : SendBuffer) (w : Nat)
    (ws : List (List Nat)) (bytes : List Nat) :
    leValue (loadBytes (refThenString st owner w ws bytes).2.Buffer (st.Buffer + st.Position) w) =
      (st.Position + w + ws.flatten.length) % 256 ^ w := by
  rw [refThenString_buffer, loadBytes_congr _ (storeBytes
    (stage ((st.WriteStringRef owner w).2.1, (st.WriteStringRef owner w).2.2) ws).2.Buffer
    (st.Buffer + st.Position)
    (leBytes w ((st.Position + w + ws.flatten.length) % 256 ^ w)))]
  · have hl := loadBytes_storeBytes
      (stage ((st.WriteStringRef owner w).2.1, (st.WriteStringRef owner w).2.2) ws).2.Buffer
      (st.Buffer + st.Position)
      (leBytes w ((st.Position + w + ws.flatten.length) % 256 ^ w))
    rw [length_leBytes] at hl
    rw [hl, leValue_leBytes, Nat.mod_mod]
  · intro i hi
    rw [storeBytes_below _ _ _ _ (by omega)]

theorem backPatch_wraps (d : List Nat) (hd : d.length = 65534) :
    (stage ((((SendBuffer.new 70000 (fun _ => 0)).ToStream true).WriteStringRef
        (SendBuffer.new 70000 (fun _ => 0)) 2).2.1,
      (((SendBuffer.new 70000 (fun _ => 0)).ToStream true).WriteStringRef
        (SendBuffer.new 70000 (fun _ => 0)) 2).2.2) [d]).1.Position = 65536 ∧
    (stage ((((SendBuffer.new 70000 (fun _ => 0)).ToStream true).WriteStringRef
        (SendBuffer.new 70000 (fun _ => 0)) 2).2.1,
      (((SendBuffer.new 70000 (fun _ => 0)).ToStream true).WriteStringRef
        (SendBuffer.new 70000 (fun _ => 0)) 2).2.2) [d]).1.Size = 70000 ∧
    leValue (loadBytes (refThenString ((SendBuffer.new 70000 (fun _ => 0)).ToStream true)
      (SendBuffer.new 70000 (fun _ => 0)) 2 [d] [65, 0]).2.Buffer 0 2) = 0 ∧
    loadBytes (refThenString ((SendBuffer.new 70000 (fun _ => 0)).ToStream true)
      (SendBuffer.new 70000 (fun _ => 0)) 2 [d] [65, 0]).2.Buffer 65536 2 = [65, 0] := by
  have hfl : [d].flatten.length = 65534 := by simp [hd]
  obtain ⟨a1, _, a3, _, _, _, _, _⟩ := stage_spec [d]
    (((SendBuffer.new 70000 (fun _ => 0)).ToStream true).WriteStringRef
      (SendBuffer.new 70000 (fun _ => 0)) 2).2.1
    (((SendBuffer.new 70000 (fun _ => 0)).ToStream true).WriteStringRef
      (SendBuffer.new 70000 (fun _ => 0)) 2).2.2
  have hp := refThenString_placeholder ((SendBuffer.new 70000 (fun _ => 0)).ToStream true)
    (SendBuffer.new 70000 (fun _ => 0)) 2 [d] [65, 0]
  have hb := refThenString_buffer ((SendBuffer.new 70000 (fun _ => 0)).ToStream true)
    (SendBuffer.new 70000 (fun _ => 0)) 2 [d] [65, 0]
  rw [hfl] at a1 hp hb
  refine ⟨?_, ?_, ?_, ?_⟩
  · show (runOps _ ([d].map StreamOp.write)).1.Position = 65536
    rw [a1]
    rfl
  · show (runOps _ ([d].map StreamOp.write)).1.Size = 70000
    rw [a3]
    decide
  · exact hp
  · rw [hb]
    exact loadBytes_storeBytes _ 65536 [65, 0]

/-! ## MemoryResource: interleavings -/

theorem U32_eq : U32 = 4294967296 := by norm_num [U32]

theorem totalHeld_set (l : List ThreadState) (t : Nat) (th th1 : ThreadState)
    (h : l[t]? = some th) : totalHeld (l.set t th1) + th.held = totalHeld l + th1.held := by
  induction l generalizing t with
  | nil => simp at h
  | cons a l ih =>
    cases t with
    | zero =>
      simp at h
      subst h
      simp [totalHeld]
      omega
    | succ t =>
      simp at h
      have := ih t h
      simp [totalHeld] at this ⊢
      omega

theorem held_le_totalHeld (l : List ThreadState) (t : Nat) (th : ThreadState)
    (h : l[t]? = some th) : th.held ≤ totalHeld l := by
  have := totalHeld_set l t th { held := 0, adding := none } h
  simp at this
  omega

theorem exists_holder (l : List ThreadState) (h : 0 < totalHeld l) :
    ∃ (t : Nat) (th : ThreadState), l[t]? = some th ∧ 1 ≤ th.held := by
  induction l with
  | nil => simp [totalHeld] at h
  | cons a l ih =>
    by_cases ha : 1 ≤ a.held
    · exact ⟨0, a, List.getElem?_cons_zero, ha⟩
    · have h1 : 0 < totalHeld l := by
        simp [totalHeld] at h ⊢
        omega
      obtain ⟨t, th, h2, h3⟩ := ih h1
      exact ⟨t + 1, th, by rw [List.getElem?_cons_succ]; exact h2, h3⟩

theorem releaseAndDestroy_eq (bAtomicRef : Bool) (r : MemoryResource) (log : List DestroyEvent) :
    MemoryResource.ReleaseReferenceAndDestroy bAtomicRef r log =
      (decide ((r.RefCount + U32 - 1) % U32 = 0),
       { r with RefCount := (r.RefCount + U32 - 1) % U32 },
       if (r.RefCount + U32 - 1) % U32 = 0 then log ++ [destroyAction r] else log) := by
  unfold MemoryResource.ReleaseReferenceAndDestroy
  rw [releaseReference_eq]
  by_cases hm : (r.RefCount + U32 - 1) % U32 = 0
  · cases hd : r.Destroy <;> simp [destroyAction, hd, hm]
  · simp [hm]

theorem decrement_counted (n : Nat) (h1 : 1 ≤ n) (h2 : n ≤ U32) :
    (n % U32 + U32 - 1) % U32 = n - 1 := by
  rw [U32_eq] at *
  omega

theorem step_load (s s1 : Conc) (t : Nat) (hs : step s (Event.load t) = some s1) :
    ∃ th, s.threads[t]? = some th ∧ th.adding = none ∧ 1 ≤ th.held ∧
      s1 = { s with threads := s.threads.set t { th with adding := some s.res.RefCount } } := by
  simp only [step] at hs
  cases hth : s.threads[t]? with
  | none => rw [hth] at hs; simp at hs
  | some th =>
    rw [hth] at hs
    by_cases hc : th.adding = none ∧ 1 ≤ th.held
    · simp only [if_pos hc] at hs
      exact ⟨th, rfl, hc.1, hc.2, (Option.some.inj hs).symm⟩
    · simp only [if_neg hc] at hs
      exact absurd hs (by simp)

theorem step_release (s s1 : Conc) (t : Nat) (hs : step s (Event.release t) = some s1) :
    ∃ th, s.threads[t]? = some th ∧ th.adding = none ∧ 1 ≤ th.held ∧
      s1 = Conc.mk (MemoryResource.ReleaseReferenceAndDestroy true s.res s.log).2.1
        (MemoryResource.ReleaseReferenceAndDestroy true s.res s.log).2.2
        (s.threads.set t { th with held := th.held - 1 }) := by
  simp only [step] at hs
  cases hth : s.threads[t]? with
  | none => rw [hth] at hs; simp at hs
  | some th =>
    rw [hth] at hs
    by_cases hc : th.adding = none ∧ 1 ≤ th.held
    · simp only [if_pos hc] at hs
      exact ⟨th, rfl, hc.1, hc.2, (Option.some.inj hs).symm⟩
    · simp only [if_neg hc] at hs
      exact absurd hs (by simp)

theorem step_cas (s s1 : Conc) (t : Nat) (hs : step s (Event.cas t) = some s1) :
    ∃ th c, s.threads[t]? = some th ∧ th.adding = some c ∧
      ((c ≠ 0 ∧ s.res.RefCount = c ∧
          s1 = Conc.mk { s.res with RefCount := (c + 1) % U32 } s.log
            (s.threads.set t { held := th.held + 1, adding := none })) ∨
       (c ≠ 0 ∧ s.res.RefCount ≠ c ∧
          s1 = Conc.mk s.res s.log
            (s.threads.set t { th with adding := some s.res.RefCount })) ∨
       (c = 0 ∧ s1 = { s with threads := s.threads.set t { th with adding := none } })) := by
  simp only [step] at hs
  cases hth : s.threads[t]? with
  | none => rw [hth] at hs; simp at hs
  | some th =>
    rw [hth] at hs
    cases had : th.adding with
    | none => simp [had] at hs
    | some c =>
      simp only [had] at hs
      refine ⟨th, c, rfl, had, ?_⟩
      by_cases hc : c = 0
      · right; right
        simp only [hc, ne_eq, not_true_eq_false, if_false] at hs
        exact ⟨hc, (Option.some.inj hs).symm⟩
      · by_cases he : s.res.RefCount = c
        · left
          simp only [InterlockedCompareExchange, ne_eq, hc, not_false_eq_true, if_true, he] at hs
          exact ⟨hc, he, (Option.some.inj hs).symm⟩
        · right; left
          simp only [InterlockedCompareExchange, ne_eq, hc, not_false_eq_true, if_true, he,
            if_false] at hs
          exact ⟨hc, he, (Option.some.inj hs).symm⟩

theorem totalHeld_set_adding (l : List ThreadState) (t : Nat) (th : ThreadState)
    (a : Option Nat) (h : l[t]? = some th) :
    totalHeld (l.set t { th with adding := a }) = totalHeld l := by
  have := totalHeld_set l t th { th with adding := a } h
  simp only at this
  omega

theorem concInv_set_adding (s : Conc) (t : Nat) (th : ThreadState) (a : Option Nat)
    (hi : ConcInv s) (h : s.threads[t]? = some th) (hh : 1 ≤ th.held) :
    ConcInv { s with threads := s.threads.set t { th with adding := a } } := by
  obtain ⟨i1, i2, i3, i4⟩ := hi
  have ht := totalHeld_set_adding s.threads t th a h
  refine ⟨?_, ?_, ?_, ?_⟩
  · show totalHeld (s.threads.set t _) ≤ U32
    rw [ht]
    exact i1
  · show s.res.RefCount = totalHeld (s.threads.set t _) % U32
    rw [ht]
    exact i2
  · intro x hx hxa
    rcases List.mem_or_eq_of_mem_set hx with hm | hm
    · exact i3 x hm hxa
    · rw [hm]
      exact hh
  · show s.log = if totalHeld (s.threads.set t _) = 0 then [destroyAction s.res] else []
    rw [ht]
    exact i4

theorem step_spec (s s1 : Conc) (e : Event) (hi : ConcInv s) (hs : step s e = some s1) :
    ConcInv s1 ∧ s1.res.Destroy = s.res.Destroy ∧
    (s1.log ≠ s.log ↔ (∃ t, e = Event.release t) ∧ s.res.RefCount = 1) ∧
    (s1.log ≠ s.log → s1.res.RefCount = 0 ∧ s1.log = s.log ++ [destroyAction s.res]) := by
  cases e with
  | load t =>
    obtain ⟨th, hth, _, hh, rfl⟩ := step_load s s1 t hs
    refine ⟨concInv_set_adding s t th _ hi hth hh, rfl, ?_, ?_⟩
    · constructor
      · intro h
        exact absurd rfl h
      · rintro ⟨⟨t1, ht1⟩, _⟩
        cases ht1
    · intro h
      exact absurd rfl h
  | cas t =>
    obtain ⟨th, c, hth, had, hcase⟩ := step_cas s s1 t hs
    have hmem : th ∈ s.threads := List.getElem?_mem hth
    have hh : 1 ≤ th.held := hi.2.2.1 th hmem (by rw [had]; simp)
    have hiff : ∀ l : List DestroyEvent,
        (l ≠ l ↔ (∃ t1, Event.cas t = Event.release t1) ∧ s.res.RefCount = 1) := by
      intro l
      constructor
      · intro h
        exact absurd rfl h
      · rintro ⟨⟨t1, ht1⟩, _⟩
        cases ht1
    rcases hcase with ⟨hc, he, rfl⟩ | ⟨hc, he, rfl⟩ | ⟨hc, rfl⟩
    · obtain ⟨i1, i2, i3, i4⟩ := hi
      have ht := totalHeld_set s.threads t th { held := th.held + 1, adding := none } hth
      have ht1 : totalHeld (s.threads.set t { held := th.held + 1, adding := none }) =
          totalHeld s.threads + 1 := by
        simp only at ht
        omega
      have hU := U32_eq
      have hlt : totalHeld s.threads < U32 ∧ totalHeld s.threads = c := by
        rw [he] at i2
        rw [hU] at i1 i2 ⊢
        omega
      refine ⟨⟨?_, ?_, ?_, ?_⟩, rfl, hiff _, ?_⟩
      · show totalHeld (s.threads.set t _) ≤ U32
        rw [ht1]
        omega
      · show (c + 1) % U32 = totalHeld (s.threads.set t _) % U32
        rw [ht1, hlt.2]
      · intro x hx hxa
        rcases List.mem_or_eq_of_mem_set hx with hm | hm
        · exact i3 x hm hxa
        · rw [hm] at hxa
          exact absurd rfl hxa
      · show s.log = if totalHeld (s.threads.set t _) = 0 then _ else []
        rw [ht1, if_neg (by omega), i4, if_neg (by omega)]
      · intro h
        exact absurd rfl h
    · refine ⟨concInv_set_adding s t th _ hi hth hh, rfl, hiff _, ?_⟩
      intro h
      exact absurd rfl h
    · refine ⟨concInv_set_adding s t th _ hi hth hh, rfl, hiff _, ?_⟩
      intro h
      exact absurd rfl h
  | release t =>
    obtain ⟨th, hth, had, hh, rfl⟩ := step_release s s1 t hs
    obtain ⟨i1, i2, i3, i4⟩ := hi
    have hle := held_le_totalHeld s.threads t th hth
    have ht := totalHeld_set s.threads t th { th with held := th.held - 1 } hth
    have ht1 : totalHeld (s.threads.set t { th with held := th.held - 1 }) =
        totalHeld s.threads - 1 := by
      simp only at ht
      omega
    have hD : (s.res.RefCount + U32 - 1) % U32 = totalHeld s.threads - 1 := by
      rw [i2]
      exact decrement_counted _ (by omega) i1
    have hlog : s.log = [] := by
      rw [i4, if_neg (by omega)]
    have hc1 : s.res.RefCount = 1 ↔ totalHeld s.threads = 1 := by
      have hU := U32_eq
      rw [i2]
      rw [hU] at i1 ⊢
      omega
    rw [releaseAndDestroy_eq, hD]
    by_cases h1 : totalHeld s.threads = 1
    · have h0 : totalHeld s.threads - 1 = 0 := by omega
      refine ⟨⟨?_, ?_, ?_, ?_⟩, rfl, ?_, ?_⟩
      · show totalHeld (s.threads.set t _) ≤ U32
        rw [ht1]
        omega
      · show totalHeld s.threads - 1 = totalHeld (s.threads.set t _) % U32
        rw [ht1, h0]
        rfl
      · intro x hx hxa
        rcases List.mem_or_eq_of_mem_set hx with hm | hm
        · exact i3 x hm hxa
        · rw [hm] at hxa
          exact absurd had hxa
      · show (if totalHeld s.threads - 1 = 0 then s.log ++ [destroyAction s.res] else s.log) =
          if totalHeld (s.threads.set t _) = 0 then [destroyAction s.res] else []
        rw [ht1, if_pos h0, if_pos h0, hlog]
        rfl
      · show (if totalHeld s.threads - 1 = 0 then s.log ++ [destroyAction s.res] else s.log) ≠
          s.log ↔ _
        rw [if_pos h0, hlog]
        constructor
        · intro _
          exact ⟨⟨t, rfl⟩, hc1.2 h1⟩
        · intro _
          simp
      · intro _
        refine ⟨h0, ?_⟩
        show (if totalHeld s.threads - 1 = 0 then s.log ++ [destroyAction s.res] else s.log) = _
        rw [if_pos h0]
    · have h0 : ¬ totalHeld s.threads - 1 = 0 := by omega
      have hne : ¬ ((if totalHeld s.threads - 1 = 0 then s.log ++ [destroyAction s.res]
          else s.log) ≠ s.log) := by
        rw [if_neg h0]
        exact fun h => h rfl
      refine ⟨⟨?_, ?_, ?_, ?_⟩, rfl, ?_, ?_⟩
      · show totalHeld (s.threads.set t _) ≤ U32
        rw [ht1]
        omega
      · show totalHeld s.threads - 1 = totalHeld (s.threads.set t _) % U32
        rw [ht1]
        have hU := U32_eq
        rw [hU] at i1 ⊢
        omega
      · intro x hx hxa
        rcases List.mem_or_eq_of_mem_set hx with hm | hm
        · exact i3 x hm hxa
        · rw [hm] at hxa
          exact absurd had hxa
      · show (if totalHeld s.threads - 1 = 0 then s.log ++ [destroyAction s.res] else s.log) =
          if totalHeld (s.threads.set t _) = 0 then [destroyAction s.res] else []
        rw [ht1, if_neg h0, if_neg h0, hlog]
      · constructor
        · intro h
          exact absurd h hne
        · rintro ⟨_, hr⟩
          exact absurd (hc1.1 hr) h1
      · intro h
        exact absurd h hne

theorem totalHeld_start (res : MemoryResource) (held : List Nat) :
    totalHeld (Conc.start res held).threads = held.sum := by
  show totalHeld (held.map _) = held.sum
  induction held with
  | nil => rfl
  | cons a l ih =>
    simp only [totalHeld, List.map_cons, List.sum_cons] at ih ⊢
    rw [ih]

theorem concInv_start (res : MemoryResource) (held : List Nat) (h1 : res.RefCount = held.sum)
    (h2 : 1 ≤ res.RefCount) (h3 : res.RefCount < U32) : ConcInv (Conc.start res held) := by
  have ht := totalHeld_start res held
  refine ⟨?_, ?_, ?_, ?_⟩
  · rw [ht, ← h1]
    omega
  · rw [ht, ← h1]
    exact (Nat.mod_eq_of_lt h3).symm
  · intro x hx hxa
    obtain ⟨h, _, rfl⟩ := List.mem_map.1 hx
    exact absurd rfl hxa
  · rw [ht, ← h1, if_neg (by omega)]
    rfl

theorem run_spec (sched : List Event) (s s1 : Conc) (hi : ConcInv s)
    (hr : run s sched = some s1) : ConcInv s1 ∧ s1.res.Destroy = s.res.Destroy := by
  induction sched generalizing s with
  | nil =>
    have : s = s1 := Option.some.inj hr
    rw [← this]
    exact ⟨hi, rfl⟩
  | cons e es ih =>
    cases hst : step s e with
    | none =>
      rw [run, hst] at hr
      exact absurd hr (by simp)
    | some s2 =>
      rw [run, hst] at hr
      obtain ⟨j1, j2, _, _⟩ := step_spec s s2 e hi hst
      obtain ⟨k1, k2⟩ := ih s2 j1 hr
      exact ⟨k1, k2.trans j2⟩

theorem step_none_of_released (s : Conc) (hi : ConcInv s) (h0 : totalHeld s.threads = 0)
    (e : Event) : step s e = none := by
  cases hst : step s e with
  | none => rfl
  | some s1 =>
    exfalso
    cases e with
    | load t =>
      obtain ⟨th, hth, _, hh, _⟩ := step_load s s1 t hst
      have := held_le_totalHeld s.threads t th hth
      omega
    | cas t =>
      obtain ⟨th, c, hth, had, _⟩ := step_cas s s1 t hst
      have hh : 1 ≤ th.held := hi.2.2.1 th (List.getElem?_mem hth) (by rw [had]; simp)
      have := held_le_totalHeld s.threads t th hth
      omega
    | release t =>
      obtain ⟨th, hth, _, hh, _⟩ := step_release s s1 t hst
      have := held_le_totalHeld s.threads t th hth
      omega

theorem step_some_of_held (s : Conc) (h : 0 < totalHeld s.threads) :
    ∃ e s1, step s e = some s1 := by
  obtain ⟨t, th, hth, hh⟩ := exists_holder s.threads h
  cases had : th.adding with
  | none =>
    refine ⟨Event.load t,
      { s with threads := s.threads.set t { th with adding := some s.res.RefCount } }, ?_⟩
    simp only [step, hth]
    rw [if_pos ⟨had, hh⟩]
  | some c =>
    refine ⟨Event.cas t, ?_⟩
    simp only [step, hth, had]
    split_ifs <;> exact ⟨_, rfl⟩

theorem load_cas_alone (s : Conc) (t : Nat) (th : ThreadState)
    (hth : s.threads[t]? = some th) (had : th.adding = none) (hh : 1 ≤ th.held) :
    (((step s (Event.load t)).bind (fun s1 => step s1 (Event.cas t))).map Conc.res) =
      MemoryResource.AddReference true 1 s.res := by
  have hlt : t < s.threads.length := (List.getElem?_eq_some.1 hth).1
  have h1 : step s (Event.load t) =
      some { s with threads := s.threads.set t { th with adding := some s.res.RefCount } } := by
    simp only [step, hth]
    rw [if_pos ⟨had, hh⟩]
  have h2 : (s.threads.set t { th with adding := some s.res.RefCount })[t]? =
      some { th with adding := some s.res.RefCount } := by
    rw [List.getElem?_set_self hlt]
  rw [h1, Option.some_bind]
  simp only [step, h2, MemoryResource.AddReference, AddReferenceLoop, InterlockedCompareExchange,
    if_true]
  by_cases hc : s.res.RefCount = 0
  · simp only [hc, ne_eq, not_true_eq_false, if_false, Option.map]
    rw [← hc]
  · simp [hc]

/-! ## Claims -/

/-- C1: for every capacity `C` (a `uint32_t`) and every sequence of bounded writes
`Write(bytes, len)` and fixed-width writes `Write<T>(value)` on an empty `SendBuffer<C>` whose
sizes sum to at most `C`, every bounded write returns a status and that status is `RSuccess`,
the final `GetSize()` is the
sum of the sizes, and the bytes `[0, GetSize())` are the written byte strings concatenated in
order, fixed-width values in little-endian representation. -/
theorem C1_write_sequence (C : Nat) (m : Mem) (ops : List WriteOp) (hC : C < U32)
    (h : totalSize ops ≤ C) :
    (applyWrites (SendBuffer.new C m) ops).1.length = (ops.filter WriteOp.isBounded).length ∧
    (∀ x ∈ (applyWrites (SendBuffer.new C m) ops).1, x = RStatus.RSuccess) ∧
    (applyWrites (SendBuffer.new C m) ops).2.GetSize = totalSize ops ∧
    loadBytes (applyWrites (SendBuffer.new C m) ops).2.Buffer 0
      (applyWrites (SendBuffer.new C m) ops).2.GetSize = concatWrites ops := by
  have hs := applyWrites_spec ops (SendBuffer.new C m) hC
    (by show 0 + totalSize ops ≤ C; omega)
  obtain ⟨h1, h2, _, h4, _⟩ := hs
  have hpos : (applyWrites (SendBuffer.new C m) ops).2.Position = totalSize ops := by
    rw [h2]; show 0 + totalSize ops = totalSize ops; omega
  refine ⟨applyWrites_length ops _, h1, hpos, ?_⟩
  show loadBytes _ 0 (applyWrites (SendBuffer.new C m) ops).2.Position = _
  rw [hpos]
  exact h4

/-- C1, witness: `SendBuffer<64>`; `Write("AB", 2)`; `Write(uint16 7)` gives `GetSize() == 4`
and the bytes `'A'`, `'B'`, `0x07`, `0x00`. -/
theorem C1_write_sequence_witness :
    (64 < U32 ∧ totalSize [WriteOp.bytes [65, 66], WriteOp.value 2 7] ≤ 64) ∧
    ((applyWrites (SendBuffer.new 64 (fun _ => 0))
        [WriteOp.bytes [65, 66], WriteOp.value 2 7]).1.length =
        ([WriteOp.bytes [65, 66], WriteOp.value 2 7].filter WriteOp.isBounded).length ∧
     (∀ x ∈ (applyWrites (SendBuffer.new 64 (fun _ => 0))
        [WriteOp.bytes [65, 66], WriteOp.value 2 7]).1, x = RStatus.RSuccess) ∧
     (applyWrites (SendBuffer.new 64 (fun _ => 0))
        [WriteOp.bytes [65, 66], WriteOp.value 2 7]).2.GetSize = totalSize
        [WriteOp.bytes [65, 66], WriteOp.value 2 7] ∧
     loadBytes (applyWrites (SendBuffer.new 64 (fun _ => 0))
        [WriteOp.bytes [65, 66], WriteOp.value 2 7]).2.Buffer 0
        (applyWrites (SendBuffer.new 64 (fun _ => 0))
          [WriteOp.bytes [65, 66], WriteOp.value 2 7]).2.GetSize =
        concatWrites [WriteOp.bytes [65, 66], WriteOp.value 2 7]) ∧
    (applyWrites (SendBuffer.new 64 (fun _ => 0))
        [WriteOp.bytes [65, 66], WriteOp.value 2 7]).2.GetSize = 4 ∧
    concatWrites [WriteOp.bytes [65, 66], WriteOp.value 2 7] = [65, 66, 7, 0] :=
  ⟨⟨by decide, by decide⟩,
   C1_write_sequence 64 (fun _ => 0) [WriteOp.bytes [65, 66], WriteOp.value 2 7]
     (by decide) (by decide),
   by decide, by decide⟩

/-- C2, at the failing input: a `SendBuffer<8>` with `Position = 2` whose array holds `0xFF`
bytes, and `Write(Data, 2^32 + 1)`. The length exceeds `GetRemaining() = 6`, but `CanFit`
receives it converted to `uint32_t`, that is `1`, and accepts; `memcpy_s` then rejects the
copy and zeroes the six bytes from `Buffer + 2` on. The call returns `RFail` and leaves
`Position` at `2`, yet the bytes `Buffer[2..8)` have changed from `0xFF` to `0`. -/
theorem C2_write_truncated_length :
    2 ^ 32 + 1 < U64 ∧
    (2 : Nat) ≤ 8 ∧
    SendBuffer.GetRemaining { BufferSize := 8, Position := 2, Buffer := fun _ => 255 } = 6 ∧
    (SendBuffer.Write { BufferSize := 8, Position := 2, Buffer := fun _ => 255 } [1]
      (2 ^ 32 + 1)).1 = RStatus.RFail ∧
    (SendBuffer.Write { BufferSize := 8, Position := 2, Buffer := fun _ => 255 } [1]
      (2 ^ 32 + 1)).2.Position = 2 ∧
    loadBytes (SendBuffer.Write { BufferSize := 8, Position := 2, Buffer := fun _ => 255 } [1]
      (2 ^ 32 + 1)).2.Buffer 0 8 = [255, 255, 0, 0, 0, 0, 0, 0] := by
  decide

/-- C3, counterexample: on an empty `SendBuffer<4>`, a session whose staged writes all stay
within the view length (`stepsInView`) stages 3 bytes, commits with rebase, stages 4 bytes and
commits with rebase. After the first commit the view starts at offset 3 with length still 4, so
it ends at 7, outside the array; after the session the owner's `Position` is 7, above the
capacity 4. A session that stages 3 bytes and calls `Commit(false)` is committed a second time by
the destructor and ends with `Position` 6. -/
theorem C3_counterexample :
    stepsInView (SendBuffer.new 4 (fun _ => 0))
      [Step.session true [StreamOp.write [1, 2, 3], StreamOp.commit true,
        StreamOp.write [4, 5, 6, 7], StreamOp.commit true]] = true ∧
    (runOps ((SendBuffer.new 4 (fun _ => 0)).ToStream true, SendBuffer.new 4 (fun _ => 0))
      [StreamOp.write [1, 2, 3], StreamOp.commit true]).1.Buffer = 3 ∧
    (runOps ((SendBuffer.new 4 (fun _ => 0)).ToStream true, SendBuffer.new 4 (fun _ => 0))
      [StreamOp.write [1, 2, 3], StreamOp.commit true]).1.Size = 4 ∧
    (runSteps (SendBuffer.new 4 (fun _ => 0))
      [Step.session true [StreamOp.write [1, 2, 3], StreamOp.commit true,
        StreamOp.write [4, 5, 6, 7], StreamOp.commit true]]).Position = 7 ∧
    ¬ ((runSteps (SendBuffer.new 4 (fun _ => 0))
      [Step.session true [StreamOp.write [1, 2, 3], StreamOp.commit true,
        StreamOp.write [4, 5, 6, 7], StreamOp.commit true]]).Position ≤ 4) ∧
    stepsInView (SendBuffer.new 4 (fun _ => 0))
      [Step.session true [StreamOp.write [1, 2, 3], StreamOp.commit false]] = true ∧
    (runSteps (SendBuffer.new 4 (fun _ => 0))
      [Step.session true [StreamOp.write [1, 2, 3], StreamOp.commit false]]).Position = 6 := by
  decide

/-- C3, amended: starting from an empty `SendBuffer<C>`, after every sequence of bounded
`Write(bytes, len)` calls and stream sessions (`ToStream`; staged writes that stay inside the
owner's array, view start + cursor <= capacity; `Commit(true)`, `CommitPacket(true)`,
`Rollback`; destruction of the stream) the owner's `Position` is at most the capacity. A view
opened by `ToStream` is `[Position, capacity)`; at every point of such a session the view starts
at the owner's `Position`, view start + cursor is at most the capacity, and the destructor leaves
the owner's `Position` at most the capacity. -/
theorem C3_bounded_path_invariant (C : Nat) (m : Mem) (steps : List Step) (flag : Bool)
    (ops : List StreamOp) (hC : C < U32)
    (h1 : stepsInside (SendBuffer.new C m) steps = true)
    (h2 : opsInside ((runSteps (SendBuffer.new C m) steps).ToStream flag,
      runSteps (SendBuffer.new C m) steps) ops = true) :
    (runSteps (SendBuffer.new C m) steps).Position ≤ C ∧
    (runSteps (SendBuffer.new C m) steps).BufferSize = C ∧
    ((runSteps (SendBuffer.new C m) steps).ToStream flag).Buffer +
      ((runSteps (SendBuffer.new C m) steps).ToStream flag).Size = C ∧
    (runOps ((runSteps (SendBuffer.new C m) steps).ToStream flag,
      runSteps (SendBuffer.new C m) steps) ops).2.Position ≤ C ∧
    (runOps ((runSteps (SendBuffer.new C m) steps).ToStream flag,
      runSteps (SendBuffer.new C m) steps) ops).1.Buffer =
      (runOps ((runSteps (SendBuffer.new C m) steps).ToStream flag,
        runSteps (SendBuffer.new C m) steps) ops).2.Position ∧
    (runOps ((runSteps (SendBuffer.new C m) steps).ToStream flag,
      runSteps (SendBuffer.new C m) steps) ops).1.Buffer +
      (runOps ((runSteps (SendBuffer.new C m) steps).ToStream flag,
        runSteps (SendBuffer.new C m) steps) ops).1.Position ≤ C ∧
    ((runOps ((runSteps (SendBuffer.new C m) steps).ToStream flag,
      runSteps (SendBuffer.new C m) steps) ops).1.dtor
      (runOps ((runSteps (SendBuffer.new C m) steps).ToStream flag,
        runSteps (SendBuffer.new C m) steps) ops).2).2.Position ≤ C := by
  have hnewC : (SendBuffer.new C m).BufferSize < U32 := hC
  have hnewP : (SendBuffer.new C m).Position ≤ (SendBuffer.new C m).BufferSize :=
    Nat.zero_le _
  obtain ⟨hp, hb⟩ := runSteps_inside steps (SendBuffer.new C m) hnewC hnewP h1
  have hb' : (runSteps (SendBuffer.new C m) steps).BufferSize = C := hb
  have hp' : (runSteps (SendBuffer.new C m) steps).Position ≤ C := hp
  generalize runSteps (SendBuffer.new C m) steps = s at *
  have hinv0 := toStream_inv s flag (by rw [hb']; exact hp')
  rw [hb'] at hinv0
  have hinv := runOps_inside C hC ops _ hinv0 h2
  obtain ⟨d1, _⟩ := dtor_inside C hC _ hinv
  obtain ⟨i1, i2, i3⟩ := hinv
  refine ⟨hp', hb', ?_, by omega, i2, i3, d1⟩
  show s.Position + s.GetRemaining = C
  rw [s.getRemaining_eq (by rw [hb']; exact hC) (by rw [hb']; exact hp'), hb']
  omega

/-- C3, witness: a `SendBuffer<8>`; a bounded write of 2 bytes, a session with two rebasing
commits and a rollback, and an open session with a staged packet. -/
theorem C3_bounded_path_invariant_witness :
    (runOps ((runSteps (SendBuffer.new 8 (fun _ => 0))
        [Step.write [1, 2],
         Step.session true [StreamOp.write [3, 4, 5], StreamOp.commit true,
           StreamOp.write [6], StreamOp.rollback]]).ToStream true,
      runSteps (SendBuffer.new 8 (fun _ => 0))
        [Step.write [1, 2],
         Step.session true [StreamOp.write [3, 4, 5], StreamOp.commit true,
           StreamOp.write [6], StreamOp.rollback]])
      [StreamOp.write [0, 0, 9], StreamOp.commitPacket true]).2.Position ≤ 8 :=
  (C3_bounded_path_invariant 8 (fun _ => 0)
    [Step.write [1, 2],
     Step.session true [StreamOp.write [3, 4, 5], StreamOp.commit true,
       StreamOp.write [6], StreamOp.rollback]]
    true [StreamOp.write [0, 0, 9], StreamOp.commitPacket true]
    (by decide) (by decide) (by decide)).2.2.2.1

/-- C4: for a stream with local cursor `k` over an owner with write position `p` (`p + k`
within `uint32_t`), `Commit(Rebase)` sets the owner's `Position` to `p + k` and changes neither
a byte of the owner nor its capacity; with `Rebase = true` the view start moves forward by `k`
and the cursor becomes 0, with `Rebase = false` view start and cursor are unchanged; the view
length and the binding are unchanged in both cases. -/
theorem C4_commit (st : TStream) (owner : SendBuffer) (Rebase : Bool)
    (h : owner.Position + st.Position < U32) :
    (st.Commit owner Rebase).2.Position = owner.Position + st.Position ∧
    (st.Commit owner Rebase).2.Buffer = owner.Buffer ∧
    (st.Commit owner Rebase).2.BufferSize = owner.BufferSize ∧
    (st.Commit owner true).1.Buffer = st.Buffer + st.Position ∧
    (st.Commit owner true).1.Position = 0 ∧
    (st.Commit owner false).1.Buffer = st.Buffer ∧
    (st.Commit owner false).1.Position = st.Position ∧
    (st.Commit owner Rebase).1.Size = st.Size ∧
    (st.Commit owner Rebase).1.Stream = st.Stream := by
  rw [TStream.commit_eq st owner Rebase h, TStream.commit_eq st owner true h,
    TStream.commit_eq st owner false h]
  cases Rebase <;> simp

/-- C4, witness: a stream opened on a `SendBuffer<16>` at write position 2 with 3 staged
bytes. -/
theorem C4_commit_witness :
    (2 + 3 < U32) ∧
    (TStream.Commit { Buffer := 2, Size := 14, Position := 3, Stream := true }
      { BufferSize := 16, Position := 2, Buffer := fun _ => 0 } true).2.Position = 2 + 3 :=
  ⟨by decide,
   (C4_commit { Buffer := 2, Size := 14, Position := 3, Stream := true }
      { BufferSize := 16, Position := 2, Buffer := fun _ => 0 } true (by decide)).1⟩

theorem commitPacket_wraps (d : List Nat) (hd : d.length = 65534) :
    opsInView ((SendBuffer.new 70000 (fun _ => 0)).ToStream true,
      SendBuffer.new 70000 (fun _ => 0))
      [StreamOp.write (leBytes sizeofTPacketSize 0), StreamOp.write d] = true ∧
    (runOps ((SendBuffer.new 70000 (fun _ => 0)).ToStream true,
      SendBuffer.new 70000 (fun _ => 0))
      [StreamOp.write (leBytes sizeofTPacketSize 0),
       StreamOp.write d]).1.Position = 65534 + sizeofTPacketSize ∧
    leValue (loadBytes (runOps ((SendBuffer.new 70000 (fun _ => 0)).ToStream true,
      SendBuffer.new 70000 (fun _ => 0))
      [StreamOp.write (leBytes sizeofTPacketSize 0), StreamOp.write d,
       StreamOp.commitPacket true]).2.Buffer 0 sizeofTPacketSize) = 0 ∧
    ¬ (leValue (loadBytes (runOps ((SendBuffer.new 70000 (fun _ => 0)).ToStream true,
      SendBuffer.new 70000 (fun _ => 0))
      [StreamOp.write (leBytes sizeofTPacketSize 0), StreamOp.write d,
       StreamOp.commitPacket true]).2.Buffer 0 sizeofTPacketSize) =
        65534 + sizeofTPacketSize) := by
  have hval : leValue (loadBytes (runOps ((SendBuffer.new 70000 (fun _ => 0)).ToStream true,
      SendBuffer.new 70000 (fun _ => 0))
      [StreamOp.write (leBytes sizeofTPacketSize 0), StreamOp.write d,
       StreamOp.commitPacket true]).2.Buffer 0 sizeofTPacketSize) = 0 := by
    simp [runOps, runOp, TStream.CommitPacket, TStream.Commit, TStream.WriteAt, TStream.Write,
      TStream.GetPosition, SendBuffer.ToStream, TStream.ctor, SendBuffer.GetFront,
      SendBuffer.new, sizeofTPacketSize, leBytes, loadBytes, storeBytes, leValue,
      List.range_succ, hd]
  refine ⟨?_, ?_, hval, ?_⟩
  · simp [opsInView, runOp, TStream.Write, SendBuffer.ToStream, TStream.ctor,
      SendBuffer.GetFront, SendBuffer.GetRemaining, SendBuffer.new, sizeofTPacketSize,
      leBytes, U32, hd]
  · simp [runOps, runOp, TStream.Write, SendBuffer.ToStream, TStream.ctor,
      SendBuffer.GetFront, SendBuffer.new, sizeofTPacketSize, leBytes, hd]
  · rw [hval]
    decide

/-- C5, counterexample: on an empty `SendBuffer<70000>` a stream stages the two-byte size
placeholder and a body of `K = 65534` bytes, all within the view. `CommitPacket` stores
`(TPacketSize)65536 = 0` in the size field: the field reads 0, not `K + 2 = 65536`. -/
theorem C5_counterexample :
    opsInView ((SendBuffer.new 70000 (fun _ => 0)).ToStream true,
      SendBuffer.new 70000 (fun _ => 0))
      [StreamOp.write (leBytes sizeofTPacketSize 0), StreamOp.write (List.replicate 65534 1)] = true ∧
    (runOps ((SendBuffer.new 70000 (fun _ => 0)).ToStream true,
      SendBuffer.new 70000 (fun _ => 0))
      [StreamOp.write (leBytes sizeofTPacketSize 0),
       StreamOp.write (List.replicate 65534 1)]).1.Position = 65534 + sizeofTPacketSize ∧
    leValue (loadBytes (runOps ((SendBuffer.new 70000 (fun _ => 0)).ToStream true,
      SendBuffer.new 70000 (fun _ => 0))
      [StreamOp.write (leBytes sizeofTPacketSize 0), StreamOp.write (List.replicate 65534 1),
       StreamOp.commitPacket true]).2.Buffer 0 sizeofTPacketSize) = 0 ∧
    ¬ (leValue (loadBytes (runOps ((SendBuffer.new 70000 (fun _ => 0)).ToStream true,
      SendBuffer.new 70000 (fun _ => 0))
      [StreamOp.write (leBytes sizeofTPacketSize 0), StreamOp.write (List.replicate 65534 1),
       StreamOp.commitPacket true]).2.Buffer 0 sizeofTPacketSize) =
        65534 + sizeofTPacketSize) :=
  commitPacket_wraps (List.replicate 65534 1) (List.length_replicate 65534 1)

/-- C5, amended: for a stream whose cursor is `K + sizeof(TPacketSize)` (a two-byte size
placeholder staged at view offset 0 and a body of `K` bytes), `CommitPacket` overwrites the view
bytes `[0, 2)` with the little-endian representation of `(K + 2) mod 2^16`, which is `K + 2`
whenever that is below `2^16`; it changes no other byte, and stream and owner are then as
`Commit(Rebase)` leaves them. -/
theorem C5_commitPacket (st : TStream) (owner : SendBuffer) (Rebase : Bool) (K : Nat)
    (hk : st.Position = K + sizeofTPacketSize) :
    leValue (loadBytes (st.CommitPacket owner Rebase).2.Buffer st.Buffer sizeofTPacketSize) =
      (K + sizeofTPacketSize) % 256 ^ sizeofTPacketSize ∧
    (∀ i, ¬ (st.Buffer ≤ i ∧ i < st.Buffer + sizeofTPacketSize) →
      (st.CommitPacket owner Rebase).2.Buffer i = owner.Buffer i) ∧
    (st.CommitPacket owner Rebase).1 = (st.Commit owner Rebase).1 ∧
    (st.CommitPacket owner Rebase).2.Position = (st.Commit owner Rebase).2.Position ∧
    (st.CommitPacket owner Rebase).2.BufferSize = (st.Commit owner Rebase).2.BufferSize := by
  have hmem : (st.CommitPacket owner Rebase).2.Buffer =
      storeBytes owner.Buffer st.Buffer
        (leBytes sizeofTPacketSize (st.Position % 256 ^ sizeofTPacketSize)) := by
    unfold TStream.CommitPacket TStream.Commit TStream.WriteAt TStream.GetPosition
    cases Rebase <;> simp
  refine ⟨?_, ?_, ?_, ?_, ?_⟩
  · rw [hmem]
    have hl := loadBytes_storeBytes owner.Buffer st.Buffer
      (leBytes sizeofTPacketSize (st.Position % 256 ^ sizeofTPacketSize))
    rw [length_leBytes] at hl
    rw [hl, leValue_leBytes, Nat.mod_mod, hk]
  · intro i hi
    rw [hmem]
    unfold storeBytes
    rw [length_leBytes, if_neg hi]
  · unfold TStream.CommitPacket TStream.Commit
    cases Rebase <;> rfl
  · unfold TStream.CommitPacket TStream.Commit TStream.WriteAt
    cases Rebase <;> rfl
  · unfold TStream.CommitPacket TStream.Commit TStream.WriteAt
    cases Rebase <;> rfl

/-- C5, witness: on an empty `SendBuffer<16>` the placeholder and a body of 3 bytes are staged;
`CommitPacket` stores the size 5. -/
theorem C5_commitPacket_witness :
    (stage ((SendBuffer.new 16 (fun _ => 0)).ToStream true, SendBuffer.new 16 (fun _ => 0))
      [leBytes sizeofTPacketSize 0, [7, 8, 9]]).1.Position = 3 + sizeofTPacketSize ∧
    leValue (loadBytes
      ((stage ((SendBuffer.new 16 (fun _ => 0)).ToStream true, SendBuffer.new 16 (fun _ => 0))
        [leBytes sizeofTPacketSize 0, [7, 8, 9]]).1.CommitPacket
       (stage ((SendBuffer.new 16 (fun _ => 0)).ToStream true, SendBuffer.new 16 (fun _ => 0))
        [leBytes sizeofTPacketSize 0, [7, 8, 9]]).2 true).2.Buffer
      (stage ((SendBuffer.new 16 (fun _ => 0)).ToStream true, SendBuffer.new 16 (fun _ => 0))
        [leBytes sizeofTPacketSize 0, [7, 8, 9]]).1.Buffer sizeofTPacketSize) =
      (3 + sizeofTPacketSize) % 256 ^ sizeofTPacketSize :=
  ⟨by decide,
   (C5_commitPacket
     (stage ((SendBuffer.new 16 (fun _ => 0)).ToStream true, SendBuffer.new 16 (fun _ => 0))
        [leBytes sizeofTPacketSize 0, [7, 8, 9]]).1
     (stage ((SendBuffer.new 16 (fun _ => 0)).ToStream true, SendBuffer.new 16 (fun _ => 0))
        [leBytes sizeofTPacketSize 0, [7, 8, 9]]).2 true 3 (by decide)).1⟩

/-- C6, counterexample: `NewPacket(5)` on a fresh `SendBuffer<64>` writes the 12-byte routing
header; a stream opened with `ToStream(true)` stages a two-byte placeholder and two body bytes and
calls `CommitPacket`. The owner's `Position` is then 16, the size field at buffer offset 0 still
reads 0, and the value 4 was stored at buffer offset 12, where the view starts. -/
theorem C6_counterexample :
    (TSendBuffer.NewPacket (some (SendBuffer.new 64 (fun _ => 0))) 5).map
      (fun b => b.Position) = some 12 ∧
    (TSendBuffer.NewPacket (some (SendBuffer.new 64 (fun _ => 0))) 5).map
      (fun b => (runOps (b.ToStream true, b)
        [StreamOp.write (leBytes sizeofTPacketSize 0), StreamOp.write [9, 9],
         StreamOp.commitPacket true]).2.Position) = some 16 ∧
    (TSendBuffer.NewPacket (some (SendBuffer.new 64 (fun _ => 0))) 5).map
      (fun b => leValue (loadBytes (runOps (b.ToStream true, b)
        [StreamOp.write (leBytes sizeofTPacketSize 0), StreamOp.write [9, 9],
         StreamOp.commitPacket true]).2.Buffer 0 sizeofTPacketSize)) = some 0 ∧
    (TSendBuffer.NewPacket (some (SendBuffer.new 64 (fun _ => 0))) 5).map
      (fun b => leValue (loadBytes (runOps (b.ToStream true, b)
        [StreamOp.write (leBytes sizeofTPacketSize 0), StreamOp.write [9, 9],
         StreamOp.commitPacket true]).2.Buffer 12 sizeofTPacketSize)) = some 4 := by
  decide

/-- C6, amended: a stream is opened with `ToStream(true)` on a buffer with write position `p`,
`k < 2^16` bytes are staged within the view, and `CommitPacket` is called. Then the size field at
buffer offset `p`, the start of the view, reads `k`, the owner's `Position` is `p + k`, so the
field counts the bytes from offset `p` to the end of the committed span, and no byte below `p` has
changed. The field is at buffer offset 0 and equals the owner's `Position` when `p = 0`. -/
theorem C6_size_field_at_view_start (s : SendBuffer) (ws : List (List Nat)) (Rebase : Bool)
    (hC : s.BufferSize < U32) (hp : s.Position ≤ s.BufferSize)
    (hfit : ws.flatten.length ≤ (s.ToStream true).Size)
    (hk : ws.flatten.length < 256 ^ sizeofTPacketSize) :
    leValue (loadBytes
      ((stage (s.ToStream true, s) ws).1.CommitPacket (stage (s.ToStream true, s) ws).2
        Rebase).2.Buffer s.Position sizeofTPacketSize) = ws.flatten.length ∧
    ((stage (s.ToStream true, s) ws).1.CommitPacket (stage (s.ToStream true, s) ws).2
      Rebase).2.Position = s.Position + ws.flatten.length ∧
    (∀ i, i < s.Position →
      ((stage (s.ToStream true, s) ws).1.CommitPacket (stage (s.ToStream true, s) ws).2
        Rebase).2.Buffer i = s.Buffer i) := by
  obtain ⟨h1, h2, _, _, h5, _, _, h8⟩ := stage_spec ws (s.ToStream true) s
  have hB : (s.ToStream true).Buffer = s.Position := rfl
  have hP : (s.ToStream true).Position = 0 := rfl
  have hS : (s.ToStream true).Size = s.BufferSize - s.Position := s.getRemaining_eq hC hp
  rw [hB, hP] at h8
  rw [hP] at h1
  rw [hB] at h2
  rw [hS] at hfit
  simp only [stage]
  have hsum : (runOps (s.ToStream true, s) (ws.map StreamOp.write)).2.Position +
      (runOps (s.ToStream true, s) (ws.map StreamOp.write)).1.Position < U32 := by
    rw [h5, h1]
    omega
  rw [TStream.commitPacket_eq _ _ Rebase hsum]
  simp only [h1, h2, h5]
  refine ⟨?_, by omega, ?_⟩
  · have hl := loadBytes_storeBytes (runOps (s.ToStream true, s)
      (ws.map StreamOp.write)).2.Buffer s.Position
      (leBytes sizeofTPacketSize ((0 + ws.flatten.length) % 256 ^ sizeofTPacketSize))
    rw [length_leBytes] at hl
    rw [hl, leValue_leBytes, Nat.mod_mod, Nat.zero_add, Nat.mod_eq_of_lt hk]
  · intro i hi
    rw [storeBytes_below _ _ _ _ hi]
    exact h8 i (by omega)

/-- C6, witness: on a `SendBuffer<64>` holding the 12-byte routing header, a placeholder and
two body bytes are staged; the size field at offset 12 reads 4. -/
theorem C6_size_field_at_view_start_witness :
    leValue (loadBytes
      ((stage (SendBuffer.ToStream { BufferSize := 64, Position := 12, Buffer := fun _ => 0 }
          true, { BufferSize := 64, Position := 12, Buffer := fun _ => 0 })
          [[0, 0], [9, 9]]).1.CommitPacket
        (stage (SendBuffer.ToStream { BufferSize := 64, Position := 12, Buffer := fun _ => 0 }
          true, { BufferSize := 64, Position := 12, Buffer := fun _ => 0 })
          [[0, 0], [9, 9]]).2 true).2.Buffer 12 sizeofTPacketSize) = 4 :=
  (C6_size_field_at_view_start { BufferSize := 64, Position := 12, Buffer := fun _ => 0 }
    [[0, 0], [9, 9]] true (by decide) (by decide) (by decide) (by decide)).1

/-- C7: for a bound stream with any staged bytes, `Rollback()` sets the cursor to 0 and leaves
the view start, the view length, the binding and the owner (so its `Position`) unchanged; the
staged writes have not moved the owner's `Position` either, and when the stream is destroyed
after the rollback the owner's `Position` is the one it had before the staged writes. -/
theorem C7_rollback (st : TStream) (owner : SendBuffer) (ws : List (List Nat))
    (hb : st.Stream = true) (hp : owner.Position < U32) :
    (runOp (stage (st, owner) ws) StreamOp.rollback).1.Position = 0 ∧
    (runOp (stage (st, owner) ws) StreamOp.rollback).1.Buffer = (stage (st, owner) ws).1.Buffer ∧
    (runOp (stage (st, owner) ws) StreamOp.rollback).1.Size = (stage (st, owner) ws).1.Size ∧
    (runOp (stage (st, owner) ws) StreamOp.rollback).1.Stream = true ∧
    (runOp (stage (st, owner) ws) StreamOp.rollback).2 = (stage (st, owner) ws).2 ∧
    (stage (st, owner) ws).2.Position = owner.Position ∧
    ((runOp (stage (st, owner) ws) StreamOp.rollback).1.dtor
      (runOp (stage (st, owner) ws) StreamOp.rollback).2).2.Position = owner.Position := by
  obtain ⟨_, _, _, h4, h5, _, _, _⟩ := stage_spec ws st owner
  simp only [stage]
  refine ⟨rfl, rfl, rfl, ?_, rfl, h5, ?_⟩
  · show (runOps (st, owner) (ws.map StreamOp.write)).1.Stream = true
    rw [h4, hb]
  · have hs : (runOp (runOps (st, owner) (ws.map StreamOp.write)) StreamOp.rollback).1.Stream
        = true := by
      show (runOps (st, owner) (ws.map StreamOp.write)).1.Stream = true
      rw [h4, hb]
    have hsum : (runOp (runOps (st, owner) (ws.map StreamOp.write)) StreamOp.rollback).2.Position
        + (runOp (runOps (st, owner) (ws.map StreamOp.write)) StreamOp.rollback).1.Position
        < U32 := by
      show (runOps (st, owner) (ws.map StreamOp.write)).2.Position + 0 < U32
      rw [h5]
      omega
    unfold TStream.dtor
    rw [if_pos hs, TStream.commit_eq _ _ true hsum]
    show (runOps (st, owner) (ws.map StreamOp.write)).2.Position + 0 = owner.Position
    rw [h5]
    omega

/-- C7, witness: a stream opened on a `SendBuffer<16>` at write position 2 stages 3 bytes. -/
theorem C7_rollback_witness :
    ((runOp (stage (SendBuffer.ToStream { BufferSize := 16, Position := 2, Buffer := fun _ => 0 }
        true, { BufferSize := 16, Position := 2, Buffer := fun _ => 0 }) [[1, 2, 3]])
        StreamOp.rollback).1.dtor
      (runOp (stage (SendBuffer.ToStream { BufferSize := 16, Position := 2, Buffer := fun _ => 0 }
        true, { BufferSize := 16, Position := 2, Buffer := fun _ => 0 }) [[1, 2, 3]])
        StreamOp.rollback).2).2.Position = 2 :=
  (C7_rollback (SendBuffer.ToStream { BufferSize := 16, Position := 2, Buffer := fun _ => 0 } true)
    { BufferSize := 16, Position := 2, Buffer := fun _ => 0 } [[1, 2, 3]]
    (by decide) (by decide)).2.2.2.2.2.2

/-- C8: one stream is opened on a buffer with write position `p0`; `k1` bytes are staged and
`Commit(true)` is called, then `k2` bytes are staged and `Commit(true)` is called (`p0 + k1 + k2`
within `uint32_t`). After the first commit the owner's `Position` and the view start are both
`p0 + k1` and the cursor is 0; the owner's final `Position` is `p0 + k1 + k2`; the staged writes
of the second session change no byte below `p0 + k1`; and at the end the bytes `[p0, p0 + k1)`
are the first session's and the bytes `[p0 + k1, p0 + k1 + k2)` the second session's. -/
theorem C8_two_rebase_commits (s : SendBuffer) (flag : Bool) (ws1 ws2 : List (List Nat))
    (h : s.Position + ws1.flatten.length + ws2.flatten.length < U32) :
    (stageCommit s flag ws1).2.Position = s.Position + ws1.flatten.length ∧
    (stageCommit s flag ws1).1.Buffer = s.Position + ws1.flatten.length ∧
    (stageCommit s flag ws1).1.Position = 0 ∧
    ((stage (stageCommit s flag ws1) ws2).1.Commit (stage (stageCommit s flag ws1) ws2).2
      true).2.Position = s.Position + ws1.flatten.length + ws2.flatten.length ∧
    (∀ i, i < s.Position + ws1.flatten.length →
      (stage (stageCommit s flag ws1) ws2).2.Buffer i = (stageCommit s flag ws1).2.Buffer i) ∧
    loadBytes ((stage (stageCommit s flag ws1) ws2).1.Commit
      (stage (stageCommit s flag ws1) ws2).2 true).2.Buffer s.Position ws1.flatten.length =
      ws1.flatten ∧
    loadBytes ((stage (stageCommit s flag ws1) ws2).1.Commit
      (stage (stageCommit s flag ws1) ws2).2 true).2.Buffer (s.Position + ws1.flatten.length)
      ws2.flatten.length = ws2.flatten := by
  obtain ⟨a1, a2, _, _, a5, _, a7, _⟩ := stage_spec ws1 (s.ToStream flag) s
  have hB : (s.ToStream flag).Buffer = s.Position := rfl
  have hP : (s.ToStream flag).Position = 0 := rfl
  rw [hB, hP, Nat.add_zero] at a7
  rw [hP, Nat.zero_add] at a1
  rw [hB] at a2
  have hsum1 : (runOps (s.ToStream flag, s) (ws1.map StreamOp.write)).2.Position +
      (runOps (s.ToStream flag, s) (ws1.map StreamOp.write)).1.Position < U32 := by
    rw [a5, a1]; omega
  have hc1 : stageCommit s flag ws1 =
      ({ (runOps (s.ToStream flag, s) (ws1.map StreamOp.write)).1 with
          Buffer := s.Position + ws1.flatten.length, Position := 0 },
       { (runOps (s.ToStream flag, s) (ws1.map StreamOp.write)).2 with
          Position := s.Position + ws1.flatten.length }) := by
    unfold stageCommit stage
    rw [TStream.commit_eq _ _ true hsum1]
    simp only [if_true, a1, a2, a5]
  have c1P : (stageCommit s flag ws1).2.Position = s.Position + ws1.flatten.length := by
    rw [hc1]
  have c1B : (stageCommit s flag ws1).1.Buffer = s.Position + ws1.flatten.length := by
    rw [hc1]
  have c1K : (stageCommit s flag ws1).1.Position = 0 := by
    rw [hc1]
  have c1M : (stageCommit s flag ws1).2.Buffer =
      (runOps (s.ToStream flag, s) (ws1.map StreamOp.write)).2.Buffer := by
    rw [hc1]
  obtain ⟨b1, _, _, _, b5, _, b7, b8⟩ :=
    stage_spec ws2 (stageCommit s flag ws1).1 (stageCommit s flag ws1).2
  rw [c1B, c1K, Nat.add_zero] at b7 b8
  rw [c1K, Nat.zero_add] at b1
  rw [c1P] at b5
  have hst : stage (stageCommit s flag ws1) ws2 =
      runOps ((stageCommit s flag ws1).1, (stageCommit s flag ws1).2)
        (ws2.map StreamOp.write) := rfl
  have hsum2 : (stage (stageCommit s flag ws1) ws2).2.Position +
      (stage (stageCommit s flag ws1) ws2).1.Position < U32 := by
    rw [hst, b5, b1]; omega
  have hfinM : ((stage (stageCommit s flag ws1) ws2).1.Commit
      (stage (stageCommit s flag ws1) ws2).2 true).2.Buffer =
      (stage (stageCommit s flag ws1) ws2).2.Buffer := by
    rw [TStream.commit_eq _ _ true hsum2]
  have hfinP : ((stage (stageCommit s flag ws1) ws2).1.Commit
      (stage (stageCommit s flag ws1) ws2).2 true).2.Position =
      (stage (stageCommit s flag ws1) ws2).2.Position +
        (stage (stageCommit s flag ws1) ws2).1.Position := by
    rw [TStream.commit_eq _ _ true hsum2]
  refine ⟨c1P, c1B, c1K, ?_, ?_, ?_, ?_⟩
  · rw [hfinP, hst, b5, b1]
  · intro i hi
    rw [hst]
    exact b8 i hi
  · rw [hfinM, hst, loadBytes_congr _ (stageCommit s flag ws1).2.Buffer]
    · rw [c1M]; exact a7
    · intro i hi
      exact b8 _ (by omega)
  · rw [hfinM, hst]
    exact b7

/-- C8, witness: on a `SendBuffer<16>` with write position 2, three bytes and then two bytes
are staged and committed. -/
theorem C8_two_rebase_commits_witness :
    ((stage (stageCommit { BufferSize := 16, Position := 2, Buffer := fun _ => 0 } true
        [[1, 2, 3]]) [[4, 5]]).1.Commit
      (stage (stageCommit { BufferSize := 16, Position := 2, Buffer := fun _ => 0 } true
        [[1, 2, 3]]) [[4, 5]]).2 true).2.Position =
      2 + [[1, 2, 3]].flatten.length + [[4, 5]].flatten.length :=
  (C8_two_rebase_commits { BufferSize := 16, Position := 2, Buffer := fun _ => 0 } true
    [[1, 2, 3]] [[4, 5]] (by decide)).2.2.2.1

/-- C9: a stream is opened on a buffer with write position `p`, `k` bytes are staged
(`p + k` within `uint32_t`), and the stream is destroyed with no explicit `Commit`,
`CommitPacket` or `Rollback`. The destructor leaves the owner as `Commit(true)` leaves it, with
`Position = p + k`; the owner's bytes `[p, p + k)` are the staged bytes; the stream ends
unbound. -/
theorem C9_destructor_auto_commit (s : SendBuffer) (flag : Bool) (ws : List (List Nat))
    (h : s.Position + ws.flatten.length < U32) :
    ((stage (s.ToStream flag, s) ws).1.dtor (stage (s.ToStream flag, s) ws).2).2.Position =
      s.Position + ws.flatten.length ∧
    loadBytes ((stage (s.ToStream flag, s) ws).1.dtor (stage (s.ToStream flag, s) ws).2).2.Buffer
      s.Position ws.flatten.length = ws.flatten ∧
    ((stage (s.ToStream flag, s) ws).1.dtor (stage (s.ToStream flag, s) ws).2).2 =
      ((stage (s.ToStream flag, s) ws).1.Commit (stage (s.ToStream flag, s) ws).2 true).2 ∧
    (stage (s.ToStream flag, s) ws).1.Stream = true ∧
    ((stage (s.ToStream flag, s) ws).1.dtor (stage (s.ToStream flag, s) ws).2).1.Stream =
      false := by
  obtain ⟨a1, _, _, a4, a5, _, a7, _⟩ := stage_spec ws (s.ToStream flag) s
  have hB : (s.ToStream flag).Buffer = s.Position := rfl
  have hP : (s.ToStream flag).Position = 0 := rfl
  have hS : (s.ToStream flag).Stream = true := rfl
  rw [hB, hP, Nat.add_zero] at a7
  rw [hP, Nat.zero_add] at a1
  rw [hS] at a4
  simp only [stage]
  have hsum : (runOps (s.ToStream flag, s) (ws.map StreamOp.write)).2.Position +
      (runOps (s.ToStream flag, s) (ws.map StreamOp.write)).1.Position < U32 := by
    rw [a5, a1]; omega
  unfold TStream.dtor
  rw [if_pos a4, TStream.commit_eq _ _ true hsum]
  refine ⟨?_, a7, rfl, a4, rfl⟩
  show (runOps (s.ToStream flag, s) (ws.map StreamOp.write)).2.Position +
    (runOps (s.ToStream flag, s) (ws.map StreamOp.write)).1.Position = _
  rw [a5, a1]

/-- C9, witness: on a `SendBuffer<16>` with write position 2 three bytes are staged and the
stream is destroyed. -/
theorem C9_destructor_auto_commit_witness :
    ((stage (SendBuffer.ToStream { BufferSize := 16, Position := 2, Buffer := fun _ => 0 } true,
        { BufferSize := 16, Position := 2, Buffer := fun _ => 0 }) [[1, 2, 3]]).1.dtor
      (stage (SendBuffer.ToStream { BufferSize := 16, Position := 2, Buffer := fun _ => 0 } true,
        { BufferSize := 16, Position := 2, Buffer := fun _ => 0 }) [[1, 2, 3]]).2).2.Position =
      2 + [[1, 2, 3]].flatten.length :=
  (C9_destructor_auto_commit { BufferSize := 16, Position := 2, Buffer := fun _ => 0 } true
    [[1, 2, 3]] (by decide)).1

/-- C10: a bound stream `Other` with staged cursor `k` over an owner with write position `p`
(`p + k` within `uint32_t`) is moved into another stream, by the move constructor or by move
assignment into `dest`. Destroying the moved-from stream leaves the owner's `Position`
unchanged, destroying the destination advances it by `k`, in either order of the two
destructions, so that both together advance it by exactly `k`. -/
theorem C10_move_transfers_session (Other dest : TStream) (owner : SendBuffer)
    (hb : Other.Stream = true) (h : owner.Position + Other.Position < U32) :
    ((TStream.moveCtor Other).2.dtor owner).2.Position = owner.Position ∧
    ((TStream.moveCtor Other).1.dtor ((TStream.moveCtor Other).2.dtor owner).2).2.Position =
      owner.Position + Other.Position ∧
    ((TStream.moveCtor Other).1.dtor owner).2.Position = owner.Position + Other.Position ∧
    ((TStream.moveCtor Other).2.dtor ((TStream.moveCtor Other).1.dtor owner).2).2.Position =
      owner.Position + Other.Position ∧
    ((TStream.moveAssign dest Other).2.dtor owner).2.Position = owner.Position ∧
    ((TStream.moveAssign dest Other).1.dtor
      ((TStream.moveAssign dest Other).2.dtor owner).2).2.Position =
      owner.Position + Other.Position ∧
    ((TStream.moveAssign dest Other).1.dtor owner).2.Position =
      owner.Position + Other.Position ∧
    ((TStream.moveAssign dest Other).2.dtor
      ((TStream.moveAssign dest Other).1.dtor owner).2).2.Position =
      owner.Position + Other.Position := by
  have h0 : owner.Position % U32 = owner.Position := Nat.mod_eq_of_lt (by omega)
  have h1 : Other.Position % U32 = Other.Position := Nat.mod_eq_of_lt (by omega)
  have h2 : (owner.Position + Other.Position) % U32 = owner.Position + Other.Position :=
    Nat.mod_eq_of_lt h
  simp [TStream.moveCtor, TStream.moveAssign, TStream.dtor, TStream.Commit, TStream.Release,
    TStream.GetPosition, IStream.move, IStream.Release, hb, h0, h1, h2]

/-- C10, witness: a stream over a `SendBuffer` with write position 2 holding 3 staged bytes is
move-constructed from; the moved-from object commits nothing. -/
theorem C10_move_transfers_session_witness :
    ((TStream.moveCtor { Buffer := 2, Size := 14, Position := 3, Stream := true }).2.dtor
      { BufferSize := 16, Position := 2, Buffer := fun _ => 0 }).2.Position = 2 :=
  (C10_move_transfers_session { Buffer := 2, Size := 14, Position := 3, Stream := true }
    { Buffer := 0, Size := 0, Position := 0, Stream := false }
    { BufferSize := 16, Position := 2, Buffer := fun _ => 0 } (by decide) (by decide)).1

/-- C11, at the failing input: a `MemoryResource<false>` whose `RefCount` is 0. The non-atomic
`AddReference()` is the bare `RefCount++` and leaves `RefCount` at 1; the atomic
`AddReference()` on the same state leaves it at 0. -/
theorem C11_nonatomic_addReference_at_zero :
    MemoryResource.AddReference false 1
      { Destroy := none, RefCount := 0, bIsPendingDestroy := false } =
      some { Destroy := none, RefCount := 1, bIsPendingDestroy := false } ∧
    MemoryResource.AddReference true 1
      { Destroy := none, RefCount := 0, bIsPendingDestroy := false } =
      some { Destroy := none, RefCount := 0, bIsPendingDestroy := false } := by
  decide

/-- C12: for every `RefCount` value `n` (a `uint32_t`), in the atomic and in the non-atomic
instantiation, `ReleaseReference()` replaces `RefCount` by `n - 1` modulo `2^32` (`n - 1` for
`n >= 1`, `2^32 - 1` for `n = 0`), returns true if and only if `n` was 1, and changes nothing
else. -/
theorem C12_releaseReference (bAtomicRef : Bool) (r : MemoryResource) (h : r.RefCount < U32) :
    (MemoryResource.ReleaseReference bAtomicRef r).2.RefCount = (r.RefCount + U32 - 1) % U32 ∧
    (MemoryResource.ReleaseReference bAtomicRef r).2.RefCount =
      (if r.RefCount = 0 then U32 - 1 else r.RefCount - 1) ∧
    ((MemoryResource.ReleaseReference bAtomicRef r).1 = true ↔ r.RefCount = 1) ∧
    (MemoryResource.ReleaseReference bAtomicRef r).2.Destroy = r.Destroy ∧
    (MemoryResource.ReleaseReference bAtomicRef r).2.bIsPendingDestroy = r.bIsPendingDestroy := by
  have hU : 1 < U32 := by decide
  have hval : (r.RefCount + U32 - 1) % U32 =
      (if r.RefCount = 0 then U32 - 1 else r.RefCount - 1) := by
    by_cases h0 : r.RefCount = 0
    · rw [if_pos h0, h0, Nat.zero_add]
      exact Nat.mod_eq_of_lt (by omega)
    · rw [if_neg h0]
      have e : r.RefCount + U32 - 1 = r.RefCount - 1 + U32 := by omega
      rw [e, Nat.add_mod_right]
      exact Nat.mod_eq_of_lt (by omega)
  have hiff : (r.RefCount + U32 - 1) % U32 = 0 ↔ r.RefCount = 1 := by
    rw [hval]
    by_cases h0 : r.RefCount = 0
    · rw [if_pos h0]
      constructor <;> intro hc <;> omega
    · rw [if_neg h0]
      constructor <;> intro hc <;> omega
  have e1 : (MemoryResource.ReleaseReference bAtomicRef r).1 =
      decide ((r.RefCount + U32 - 1) % U32 = 0) := by rw [releaseReference_eq]
  have e2 : (MemoryResource.ReleaseReference bAtomicRef r).2 =
      { r with RefCount := (r.RefCount + U32 - 1) % U32 } := by rw [releaseReference_eq]
  rw [e1, e2, decide_eq_true_eq]
  exact ⟨rfl, hval, hiff, rfl, rfl⟩

/-- C12, witness: the release of the last of one reference, in the atomic instantiation. -/
theorem C12_releaseReference_witness :
    (1 < U32) ∧
    ((MemoryResource.ReleaseReference true
        { Destroy := none, RefCount := 1, bIsPendingDestroy := false }).1 = true ↔
      (1 : Nat) = 1) :=
  ⟨by decide,
   (C12_releaseReference true { Destroy := none, RefCount := 1, bIsPendingDestroy := false }
     (by decide)).2.2.1⟩

/-- C13: starting from `RefCount = n` with `n >= 1`, in `n` consecutive
`ReleaseReferenceAndDestroy()` calls the first `n - 1` return false and run no destroy action,
and the `n`-th returns true and runs the destroy action once: `Destroy(true)` when the callback
is set, the default free otherwise. -/
theorem C13_releaseReferenceAndDestroy (bAtomicRef : Bool) (r : MemoryResource) (n : Nat)
    (hn : r.RefCount = n) (h1 : 1 ≤ n) (h2 : n < U32) :
    (releaseAndDestroyN bAtomicRef n r []).1 = List.replicate (n - 1) false ++ [true] ∧
    (releaseAndDestroyN bAtomicRef n r []).2.2 = [destroyAction r] ∧
    (releaseAndDestroyN bAtomicRef (n - 1) r []).2.2 = [] := by
  obtain ⟨m, rfl⟩ : ∃ m, n = m + 1 := ⟨n - 1, by omega⟩
  rw [releaseAndDestroyN_spec bAtomicRef m r [] hn h2]
  rw [Nat.add_sub_cancel,
    releaseAndDestroyN_before bAtomicRef m r [] (by omega) (by omega)]
  exact ⟨rfl, rfl, rfl⟩

/-- C13, witness: three references and a stored callback with the name 7. -/
theorem C13_releaseReferenceAndDestroy_witness :
    (releaseAndDestroyN true 3 { Destroy := some 7, RefCount := 3, bIsPendingDestroy := false }
      []).1 = List.replicate (3 - 1) false ++ [true] ∧
    (releaseAndDestroyN true 3 { Destroy := some 7, RefCount := 3, bIsPendingDestroy := false }
      []).2.2 = [DestroyEvent.callback 7 true] :=
  ⟨(C13_releaseReferenceAndDestroy true
      { Destroy := some 7, RefCount := 3, bIsPendingDestroy := false } 3 rfl (by decide)
      (by decide)).1,
   (C13_releaseReferenceAndDestroy true
      { Destroy := some 7, RefCount := 3, bIsPendingDestroy := false } 3 rfl (by decide)
      (by decide)).2.1⟩

/-- C14: with size classes `S1 < S2 < S3 < S4 < S5` and a request `K <= S5`, the run-time
`New(K)` and the compile-time `New<K>()` call `NewRaw()` of the pool of the smallest class `i`
with `K <= Si` (every smaller class is below `K`), and when that pool hands out an instance the
result is a handle to it whose `Destroy` callback deallocates to the same pool `i`. A request of
`Si + 1` bytes, `i < 5`, is served from the pool of class `i + 1`. -/
theorem C14_size_class (c : SendBufferSizes) (NewRaw : Nat → Option SendBuffer) (K : Nat)
    (h12 : c.CSize1ServerSendBufferSize < c.CSize2ServerSendBufferSize)
    (h23 : c.CSize2ServerSendBufferSize < c.CSize3ServerSendBufferSize)
    (h34 : c.CSize3ServerSendBufferSize < c.CSize4ServerSendBufferSize)
    (h45 : c.CSize4ServerSendBufferSize < c.CSize5ServerSendBufferSize)
    (hK : K ≤ c.CSize5ServerSendBufferSize) :
    (∃ i, 1 ≤ i ∧ i ≤ 5 ∧ K ≤ c.size i ∧ (∀ j, 1 ≤ j → j < i → c.size j < K) ∧
      TSendBuffer.New c NewRaw K = TSEND_BUFFER_DESTROY_CALLBACK i (NewRaw i) i ∧
      TSendBuffer.NewT c NewRaw K = some (TSEND_BUFFER_DESTROY_CALLBACK i (NewRaw i) i) ∧
      (∀ b, NewRaw i = some b →
        TSendBuffer.New c NewRaw K = Acquired.handle b i i ∧
        TSendBuffer.NewT c NewRaw K = some (Acquired.handle b i i))) ∧
    (∀ i b, 1 ≤ i → i < 5 → NewRaw (i + 1) = some b →
      TSendBuffer.New c NewRaw (c.size i + 1) = Acquired.handle b (i + 1) (i + 1) ∧
      TSendBuffer.NewT c NewRaw (c.size i + 1) = some (Acquired.handle b (i + 1) (i + 1))) := by
  constructor
  · by_cases h1 : K ≤ c.CSize1ServerSendBufferSize
    · refine ⟨1, by omega, by omega, h1, ?_, ?_, ?_, ?_⟩
      · intro j hj1 hj2; omega
      · simp [TSendBuffer.New, h1]
      · simp [TSendBuffer.NewT, h1]
      · intro b hb
        simp [TSendBuffer.New, TSendBuffer.NewT, h1, hb, TSEND_BUFFER_DESTROY_CALLBACK]
    · by_cases h2 : K ≤ c.CSize2ServerSendBufferSize
      · refine ⟨2, by omega, by omega, h2, ?_, ?_, ?_, ?_⟩
        · intro j hj1 hj2
          interval_cases j
          simp only [SendBufferSizes.size]; omega
        · simp [TSendBuffer.New, h1, h2]
        · simp [TSendBuffer.NewT, h1, h2]
        · intro b hb
          simp [TSendBuffer.New, TSendBuffer.NewT, h1, h2, hb, TSEND_BUFFER_DESTROY_CALLBACK]
      · by_cases h3 : K ≤ c.CSize3ServerSendBufferSize
        · refine ⟨3, by omega, by omega, h3, ?_, ?_, ?_, ?_⟩
          · intro j hj1 hj2
            interval_cases j <;> simp only [SendBufferSizes.size] <;> omega
          · simp [TSendBuffer.New, h1, h2, h3]
          · simp [TSendBuffer.NewT, h1, h2, h3]
          · intro b hb
            simp [TSendBuffer.New, TSendBuffer.NewT, h1, h2, h3, hb,
              TSEND_BUFFER_DESTROY_CALLBACK]
        · by_cases h4 : K ≤ c.CSize4ServerSendBufferSize
          · refine ⟨4, by omega, by omega, h4, ?_, ?_, ?_, ?_⟩
            · intro j hj1 hj2
              interval_cases j <;> simp only [SendBufferSizes.size] <;> omega
            · simp [TSendBuffer.New, h1, h2, h3, h4]
            · simp [TSendBuffer.NewT, h1, h2, h3, h4]
            · intro b hb
              simp [TSendBuffer.New, TSendBuffer.NewT, h1, h2, h3, h4, hb,
                TSEND_BUFFER_DESTROY_CALLBACK]
          · refine ⟨5, by omega, by omega, hK, ?_, ?_, ?_, ?_⟩
            · intro j hj1 hj2
              interval_cases j <;> simp only [SendBufferSizes.size] <;> omega
            · simp [TSendBuffer.New, h1, h2, h3, h4, hK]
            · simp [TSendBuffer.NewT, h1, h2, h3, h4, hK]
            · intro b hb
              simp [TSendBuffer.New, TSendBuffer.NewT, h1, h2, h3, h4, hK, hb,
                TSEND_BUFFER_DESTROY_CALLBACK]
  · intro i b hi1 hi5 hb
    interval_cases i
    · have n1 : ¬ c.CSize1ServerSendBufferSize + 1 ≤ c.CSize1ServerSendBufferSize := by omega
      have p2 : c.CSize1ServerSendBufferSize + 1 ≤ c.CSize2ServerSendBufferSize := by omega
      simp [TSendBuffer.New, TSendBuffer.NewT, SendBufferSizes.size, n1, p2, hb,
        TSEND_BUFFER_DESTROY_CALLBACK]
    · have n1 : ¬ c.CSize2ServerSendBufferSize + 1 ≤ c.CSize1ServerSendBufferSize := by omega
      have n2 : ¬ c.CSize2ServerSendBufferSize + 1 ≤ c.CSize2ServerSendBufferSize := by omega
      have p3 : c.CSize2ServerSendBufferSize + 1 ≤ c.CSize3ServerSendBufferSize := by omega
      simp [TSendBuffer.New, TSendBuffer.NewT, SendBufferSizes.size, n1, n2, p3, hb,
        TSEND_BUFFER_DESTROY_CALLBACK]
    · have n1 : ¬ c.CSize3ServerSendBufferSize + 1 ≤ c.CSize1ServerSendBufferSize := by omega
      have n2 : ¬ c.CSize3ServerSendBufferSize + 1 ≤ c.CSize2ServerSendBufferSize := by omega
      have n3 : ¬ c.CSize3ServerSendBufferSize + 1 ≤ c.CSize3ServerSendBufferSize := by omega
      have p4 : c.CSize3ServerSendBufferSize + 1 ≤ c.CSize4ServerSendBufferSize := by omega
      simp [TSendBuffer.New, TSendBuffer.NewT, SendBufferSizes.size, n1, n2, n3, p4, hb,
        TSEND_BUFFER_DESTROY_CALLBACK]
    · have n1 : ¬ c.CSize4ServerSendBufferSize + 1 ≤ c.CSize1ServerSendBufferSize := by omega
      have n2 : ¬ c.CSize4ServerSendBufferSize + 1 ≤ c.CSize2ServerSendBufferSize := by omega
      have n3 : ¬ c.CSize4ServerSendBufferSize + 1 ≤ c.CSize3ServerSendBufferSize := by omega
      have n4 : ¬ c.CSize4ServerSendBufferSize + 1 ≤ c.CSize4ServerSendBufferSize := by omega
      have p5 : c.CSize4ServerSendBufferSize + 1 ≤ c.CSize5ServerSendBufferSize := by omega
      simp [TSendBuffer.New, TSendBuffer.NewT, SendBufferSizes.size, n1, n2, n3, n4, p5, hb,
        TSEND_BUFFER_DESTROY_CALLBACK]

/-- C14, witness: classes of 64, 128, 256, 512 and 1024 bytes, pools that hand out an empty
buffer of their class, and a request of 65 bytes, served from class 2. -/
theorem C14_size_class_witness :
    TSendBuffer.New
      { CSize1ServerSendBufferSize := 64, CSize2ServerSendBufferSize := 128,
        CSize3ServerSendBufferSize := 256, CSize4ServerSendBufferSize := 512,
        CSize5ServerSendBufferSize := 1024 }
      (fun i => some (SendBuffer.new (64 * 2 ^ (i - 1)) (fun _ => 0)))
      (SendBufferSizes.size
        { CSize1ServerSendBufferSize := 64, CSize2ServerSendBufferSize := 128,
          CSize3ServerSendBufferSize := 256, CSize4ServerSendBufferSize := 512,
          CSize5ServerSendBufferSize := 1024 } 1 + 1) =
      Acquired.handle (SendBuffer.new (64 * 2 ^ (1 + 1 - 1)) (fun _ => 0)) (1 + 1) (1 + 1) :=
  ((C14_size_class
      { CSize1ServerSendBufferSize := 64, CSize2ServerSendBufferSize := 128,
        CSize3ServerSendBufferSize := 256, CSize4ServerSendBufferSize := 512,
        CSize5ServerSendBufferSize := 1024 }
      (fun i => some (SendBuffer.new (64 * 2 ^ (i - 1)) (fun _ => 0))) 65
      (by decide) (by decide) (by decide) (by decide) (by decide)).2 1
      (SendBuffer.new (64 * 2 ^ (1 + 1 - 1)) (fun _ => 0)) (by decide) (by decide) rfl).1

/-- C15, at the failing input: classes of 64 to 1024 bytes, pools whose `NewRaw()` returns the
null pointer, and `New(10)`. Class 1 is selected and, with `NewBuffer` null, the callback is
stored through `NewBuffer->Destroy`: a store through the null pointer instead of the return of an
empty handle. The other two failure cases do yield the empty handle: `New(2000)`, above the
largest class, and `TRecvBuffer::New()` with `NewRaw()` null. -/
theorem C15_new_with_exhausted_pool :
    TSendBuffer.New
      { CSize1ServerSendBufferSize := 64, CSize2ServerSendBufferSize := 128,
        CSize3ServerSendBufferSize := 256, CSize4ServerSendBufferSize := 512,
        CSize5ServerSendBufferSize := 1024 } (fun _ => none) 10 = Acquired.nullAccess 1 ∧
    TSendBuffer.New
      { CSize1ServerSendBufferSize := 64, CSize2ServerSendBufferSize := 128,
        CSize3ServerSendBufferSize := 256, CSize4ServerSendBufferSize := 512,
        CSize5ServerSendBufferSize := 1024 } (fun _ => none) 2000 = Acquired.empty ∧
    TRecvBuffer.New none = Acquired.empty :=
  ⟨rfl, rfl, rfl⟩

/-- C16, at the failing input: a block of 16 bytes at address 1000, `Length = 2^64 - 1` and
`StartOffset = 2` with a 64-bit `ulong_t` (and `Length = 2^32 - 1` with a 32-bit one). The sum
`Length + StartOffset` wraps to 1, which is not above `BlockSize`, so `CanFit` returns
`Block + 2` although `StartOffset + Length` exceeds `BlockSize`. -/
theorem C16_canFit_sum_wraps :
    (2 ^ 64 - 1 < 2 ^ 64 ∧ 2 < 2 ^ 64 ∧ 16 < 2 + (2 ^ 64 - 1)) ∧
    MemoryBlockBase.CanFit (2 ^ 64)
      { BlockSize := 16, ElementSize := 1, ElementsCount := 16, Block := 1000 }
      (2 ^ 64 - 1) 2 = some 1002 ∧
    MemoryBlockBase.CanFit (2 ^ 32)
      { BlockSize := 16, ElementSize := 1, ElementsCount := 16, Block := 1000 }
      (2 ^ 32 - 1) 2 = some 1002 := by
  decide

/-- C17: for every header length `H` (a `TPacketSize`) and every `p` with `0 <= p <= H`,
whatever the state before: after `Reset(H)` the exposed view is the buffer origin with length
`H` and `IOState` is `EReceiveState_PacketHead`; after `Reset(H)`, `Update(p)` and
`Update(H - p)` the exposed length is 0 and the exposed pointer is the origin plus `H`. -/
theorem C17_reset_update (r : RecvBuffer) (H p : Nat) (hH : H < 256 ^ sizeofTPacketSize)
    (hp : p ≤ H) :
    (r.Reset H).IBuffer = { Buffer := 0, Length := H } ∧
    (r.Reset H).IOState = EReceiveState.toInt EReceiveState.EReceiveState_PacketHead ∧
    (((r.Reset H).Update p).Update (H - p)).IBuffer = { Buffer := H, Length := 0 } ∧
    (((r.Reset H).Update p).Update (H - p)).IOState =
      EReceiveState.toInt EReceiveState.EReceiveState_PacketHead := by
  have hU : 256 ^ sizeofTPacketSize < U32 := by decide
  have h1 : H % 256 ^ sizeofTPacketSize = H := Nat.mod_eq_of_lt hH
  have h2 : p % 256 ^ sizeofTPacketSize = p := Nat.mod_eq_of_lt (by omega)
  have h3 : (H - p) % 256 ^ sizeofTPacketSize = H - p := Nat.mod_eq_of_lt (by omega)
  have h4 : (H + U32 - p) % U32 = H - p := by
    have : H + U32 - p = H - p + U32 := by omega
    rw [this, Nat.add_mod_right]
    exact Nat.mod_eq_of_lt (by omega)
  have h5 : (H - p + U32 - (H - p)) % U32 = 0 := by
    have : H - p + U32 - (H - p) = U32 := by omega
    rw [this, Nat.mod_self]
  refine ⟨?_, rfl, ?_, rfl⟩
  · simp only [RecvBuffer.Reset, h1]
  · simp only [RecvBuffer.Reset, RecvBuffer.Update, h1, h2, h3, h4, h5, Nat.zero_add,
      IBuffer.mk.injEq, and_true]
    omega

/-- C17, witness: a buffer left in the body state with a stale view, `H = 4` and `p = 1`. -/
theorem C17_reset_update_witness :
    (((RecvBuffer.Reset
        { IBuffer := { Buffer := 9, Length := 3 }, IOState := 1, WorkOverllapped := [5, 5] }
        4).Update 1).Update (4 - 1)).IBuffer = { Buffer := 4, Length := 0 } :=
  (C17_reset_update
    { IBuffer := { Buffer := 9, Length := 3 }, IOState := 1, WorkOverllapped := [5, 5] }
    4 1 (by decide) (by decide)).2.2.1

/-- C18: for a send buffer with write position `p <= capacity` (capacity a `uint32_t`) and for
both values of the flag, `ToStream(flag)` returns a stream bound to the buffer whose view starts
at buffer offset `p`, whose view length is `capacity - p` and whose cursor is 0; the two values
of the flag give the same stream. The constructor only reads the buffer (`GetFront()`,
`GetRemaining()`): the buffer a session starts with is the one `ToStream` was called on. -/
theorem C18_toStream (s : SendBuffer) (flag : Bool) (hC : s.BufferSize < U32)
    (hp : s.Position ≤ s.BufferSize) :
    (s.ToStream flag).Stream = true ∧
    (s.ToStream flag).Buffer = s.Position ∧
    (s.ToStream flag).Size = s.BufferSize - s.Position ∧
    (s.ToStream flag).Position = 0 ∧
    s.ToStream true = s.ToStream false ∧
    (runOps (s.ToStream flag, s) []).2 = s :=
  ⟨rfl, rfl, s.getRemaining_eq hC hp, rfl, rfl, rfl⟩

/-- C18, witness: a `SendBuffer<16>` with write position 5 and the flag false. -/
theorem C18_toStream_witness :
    (SendBuffer.ToStream { BufferSize := 16, Position := 5, Buffer := fun _ => 0 } false).Size =
      16 - 5 :=
  (C18_toStream { BufferSize := 16, Position := 5, Buffer := fun _ => 0 } false
    (by decide) (by decide)).2.2.1

/-- C19: executed one after the other, for `RefCount = r >= 1` and `r + T < 2^32`, in either
instantiation, `T` `AddReference()` calls return and `T` `ReleaseReference()` calls after them
restore `RefCount` to `r`; and starting from `RefCount = 1`, after `T` `AddReference()` calls
the `T + 1` calls of `ReleaseReferenceAndDestroy()` return false `T` times and true once and run
the destroy action exactly once. -/
theorem C19_add_then_release (bAtomicRef : Bool) (fuel T : Nat) (r : MemoryResource)
    (h0 : 1 ≤ r.RefCount) (h1 : r.RefCount + T < U32) :
    (addReferences bAtomicRef (fuel + 1) T r).map (releaseReferences bAtomicRef T) = some r ∧
    (addReferences bAtomicRef (fuel + 1) T { r with RefCount := 1 }).map
      (fun x => ((releaseAndDestroyN bAtomicRef (T + 1) x []).1,
                 (releaseAndDestroyN bAtomicRef (T + 1) x []).2.2)) =
      some (List.replicate T false ++ [true], [destroyAction r]) := by
  constructor
  · rw [addReferences_spec bAtomicRef fuel T r (by omega) h1]
    simp only [Option.map_some']
    rw [releaseReferences_spec bAtomicRef T _ (by show T ≤ r.RefCount + T; omega)
      (by show r.RefCount + T < U32; omega)]
    simp only [Option.some.injEq]
    show MemoryResource.mk _ (r.RefCount + T - T) _ = r
    rw [Nat.add_sub_cancel]
  · rw [addReferences_spec bAtomicRef fuel T { r with RefCount := 1 } Nat.one_pos
      (by show 1 + T < U32; omega)]
    simp only [Option.map_some']
    rw [releaseAndDestroyN_spec bAtomicRef T _ [] (by show 1 + T = T + 1; omega) (by omega)]
    rfl

/-- C19, witness: one reference, three more added and released, atomic instantiation. -/
theorem C19_add_then_release_witness :
    (addReferences true (0 + 1) 3 { Destroy := some 7, RefCount := 1, bIsPendingDestroy := false }).map
      (releaseReferences true 3) =
      some { Destroy := some 7, RefCount := 1, bIsPendingDestroy := false } :=
  (C19_add_then_release true 0 3 { Destroy := some 7, RefCount := 1, bIsPendingDestroy := false }
    (by decide) (by decide)).1

/-- C20, counterexample: a `SendBuffer<70000>` holding zeros and `WriteAt<uint16_t>(0xABCD,
65536)`, where `65536 + 2 <= 70000`. The parameter `Offset` is a `uint16_t` and receives 0: the
bytes `[0, 2)` are overwritten and the bytes `[65536, 65538)` are left as they were. -/
theorem C20_counterexample :
    65536 + 2 ≤ (SendBuffer.new 70000 (fun _ => 0)).BufferSize ∧
    loadBytes ((SendBuffer.new 70000 (fun _ => 0)).WriteAt 2 43981 65536).Buffer 65536 2 =
      [0, 0] ∧
    leBytes 2 43981 = [205, 171] ∧
    loadBytes ((SendBuffer.new 70000 (fun _ => 0)).WriteAt 2 43981 65536).Buffer 0 2 =
      [205, 171] ∧
    loadBytes (SendBuffer.new 70000 (fun _ => 0)).Buffer 0 2 = [0, 0] := by
  decide

/-- C20, amended: for every send buffer, every value of an unsigned integer type of `w` bytes
and every offset below `2^16` (the range of the `uint16_t` parameter), `WriteAt<T>(value,
offset)` overwrites the bytes `[offset, offset + w)` with the representation of the value and
leaves every other byte, `Position`, `GetSize()`, `GetRemaining()` and the capacity unchanged. -/
theorem C20_writeAt (s : SendBuffer) (w v Offset : Nat) (h : Offset < 2 ^ 16) :
    loadBytes (s.WriteAt w v Offset).Buffer Offset w = leBytes w v ∧
    (∀ i, ¬ (Offset ≤ i ∧ i < Offset + w) → (s.WriteAt w v Offset).Buffer i = s.Buffer i) ∧
    (s.WriteAt w v Offset).Position = s.Position ∧
    (s.WriteAt w v Offset).GetSize = s.GetSize ∧
    (s.WriteAt w v Offset).GetRemaining = s.GetRemaining ∧
    (s.WriteAt w v Offset).BufferSize = s.BufferSize := by
  have hm : Offset % 2 ^ 16 = Offset := Nat.mod_eq_of_lt h
  refine ⟨?_, ?_, rfl, rfl, rfl, rfl⟩
  · have hl := loadBytes_storeBytes s.Buffer Offset (leBytes w v)
    rw [length_leBytes] at hl
    simp only [SendBuffer.WriteAt, hm]
    exact hl
  · intro i hi
    simp only [SendBuffer.WriteAt, hm]
    unfold storeBytes
    rw [length_leBytes, if_neg hi]

/-- C20, witness: a `SendBuffer<16>` with three bytes written, patched at offset 1. -/
theorem C20_writeAt_witness :
    loadBytes (SendBuffer.WriteAt { BufferSize := 16, Position := 3, Buffer := fun _ => 9 }
      2 7 1).Buffer 1 2 = leBytes 2 7 :=
  (C20_writeAt { BufferSize := 16, Position := 3, Buffer := fun _ => 9 } 2 7 1 (by decide)).1

/-- C21: when `New<BufferSize>()` hands out an empty buffer (`Position` 0), `NewPacket(id)`
returns it holding, from offset 0 on, the zero size placeholder of `sizeof(TPacketSize)` bytes,
the opcode `Opcode_ROUTED_PACKET` (3) in `sizeof(TPacketOpcode)` bytes and the identifier in
`sizeof(EntityId)` bytes, with `Position` the sum of the three widths; and
`AllocBroadcastPacket(type)` returns it holding the zero size placeholder, the opcode
`Opcode_BROADCAST_PACKET` (2) and the value of `type` in `sizeof(EBroadcastType)` bytes, with
`Position` the sum of those three widths. -/
theorem C21_packet_headers (b : SendBuffer) (id : Nat) (t : EBroadcastType) (d p : Nat)
    (hp : b.Position = 0) :
    (∃ x, TSendBuffer.NewPacket (some b) id = some x ∧
      x.Position = sizeofTPacketSize + sizeofTPacketOpcode + sizeofEntityId ∧
      loadBytes x.Buffer 0 sizeofTPacketSize = List.replicate sizeofTPacketSize 0 ∧
      loadBytes x.Buffer sizeofTPacketSize sizeofTPacketOpcode =
        leBytes sizeofTPacketOpcode 3 ∧
      loadBytes x.Buffer (sizeofTPacketSize + sizeofTPacketOpcode) sizeofEntityId =
        leBytes sizeofEntityId id) ∧
    (∃ x, TSendBuffer.AllocBroadcastPacket (Acquired.handle b d p) t = Acquired.handle x d p ∧
      x.Position = sizeofTPacketSize + sizeofTPacketOpcode + sizeofEBroadcastType ∧
      loadBytes x.Buffer 0 sizeofTPacketSize = List.replicate sizeofTPacketSize 0 ∧
      loadBytes x.Buffer sizeofTPacketSize sizeofTPacketOpcode =
        leBytes sizeofTPacketOpcode 2 ∧
      loadBytes x.Buffer (sizeofTPacketSize + sizeofTPacketOpcode) sizeofEBroadcastType =
        leBytes sizeofEBroadcastType t.toNat) := by
  constructor
  · refine ⟨_, rfl, ?_⟩
    obtain ⟨h1, _, h3, h4, h5⟩ := b.writeT3 sizeofTPacketSize 0 sizeofTPacketOpcode
      Opcode_ROUTED_PACKET sizeofEntityId id (by rw [hp]; decide)
    rw [hp] at h1 h3 h4 h5
    simp only [Nat.zero_add] at h1 h3 h4 h5
    rw [leBytes_zero] at h3
    exact ⟨h1, h3, h4, h5⟩
  · refine ⟨_, rfl, ?_⟩
    obtain ⟨h1, _, h3, h4, h5⟩ := b.writeT3 sizeofTPacketSize 0 sizeofTPacketOpcode
      Opcode_BROADCAST_PACKET sizeofEBroadcastType t.toNat (by rw [hp]; decide)
    rw [hp] at h1 h3 h4 h5
    simp only [Nat.zero_add] at h1 h3 h4 h5
    rw [leBytes_zero] at h3
    exact ⟨h1, h3, h4, h5⟩

/-- C21, witness: an empty `SendBuffer<64>`; `NewPacket(5)` leaves `Position` at 12 and
`AllocBroadcastPacket(EBroadcastType_Area)` at 8. -/
theorem C21_packet_headers_witness :
    (∃ x, TSendBuffer.NewPacket (some (SendBuffer.new 64 (fun _ => 7))) 5 = some x ∧
      x.Position = sizeofTPacketSize + sizeofTPacketOpcode + sizeofEntityId ∧
      loadBytes x.Buffer 0 sizeofTPacketSize = List.replicate sizeofTPacketSize 0 ∧
      loadBytes x.Buffer sizeofTPacketSize sizeofTPacketOpcode =
        leBytes sizeofTPacketOpcode 3 ∧
      loadBytes x.Buffer (sizeofTPacketSize + sizeofTPacketOpcode) sizeofEntityId =
        leBytes sizeofEntityId 5) ∧
    sizeofTPacketSize + sizeofTPacketOpcode + sizeofEntityId = 12 ∧
    sizeofTPacketSize + sizeofTPacketOpcode + sizeofEBroadcastType = 8 :=
  ⟨(C21_packet_headers (SendBuffer.new 64 (fun _ => 7)) 5 EBroadcastType.EBroadcastType_Area
      1 1 rfl).1, by decide, by decide⟩

/-- C22, counterexample: with a two-byte `TStreamOffsetType`, a stream over an empty
`SendBuffer<70000>` takes a reference with `WriteStringRef()` at cursor 0 and stages 65534 more
bytes, so that the cursor is 65536, inside the view of 70000 bytes. `WriteString(ref, "A")`
stages the string from view offset 65536 on and stores `(TStreamOffsetType)65536 = 0` in the
placeholder: it reads 0, not the offset 65536 at which the bytes of the string begin. -/
theorem C22_counterexample :
    (stage ((((SendBuffer.new 70000 (fun _ => 0)).ToStream true).WriteStringRef
        (SendBuffer.new 70000 (fun _ => 0)) 2).2.1,
      (((SendBuffer.new 70000 (fun _ => 0)).ToStream true).WriteStringRef
        (SendBuffer.new 70000 (fun _ => 0)) 2).2.2) [List.replicate 65534 1]).1.Position =
      65536 ∧
    (stage ((((SendBuffer.new 70000 (fun _ => 0)).ToStream true).WriteStringRef
        (SendBuffer.new 70000 (fun _ => 0)) 2).2.1,
      (((SendBuffer.new 70000 (fun _ => 0)).ToStream true).WriteStringRef
        (SendBuffer.new 70000 (fun _ => 0)) 2).2.2) [List.replicate 65534 1]).1.Size = 70000 ∧
    leValue (loadBytes (refThenString ((SendBuffer.new 70000 (fun _ => 0)).ToStream true)
      (SendBuffer.new 70000 (fun _ => 0)) 2 [List.replicate 65534 1] [65, 0]).2.Buffer 0 2) =
      0 ∧
    loadBytes (refThenString ((SendBuffer.new 70000 (fun _ => 0)).ToStream true)
      (SendBuffer.new 70000 (fun _ => 0)) 2 [List.replicate 65534 1] [65, 0]).2.Buffer 65536 2 =
      [65, 0] :=
  backPatch_wraps (List.replicate 65534 1) (List.length_replicate 65534 1)

/-- C22, amended: for a stream with view start `B` and cursor `c0`, `w = sizeof(TStreamOffsetType)`:
`WriteStringRef()` returns a reference to view offset `c0`, stages `w` zero bytes there and
advances the cursor by `w`. After further staged writes of `k` bytes, `WriteString(ref, s)` on
the same stream, at cursor `c = c0 + w + k`, leaves the value `c mod 2^(8w)` in the placeholder,
which is `c` whenever `c` fits `TStreamOffsetType`, stages the bytes of `s` from view offset `c`
on, and changes no other byte below `B + c`. `WriteArrayRef(n)` stages a header of
`sizeof(TPacketObjectArrayHeader)` bytes, advances the cursor by that width and leaves in the
member `Count` the value `n`, as the `TPacketSize` parameter receives it and as `Count` can
hold it. -/
theorem C22_back_patch_references (st : TStream) (owner : SendBuffer) (w : Nat)
    (ws : List (List Nat)) (bytes : List Nat) (L : ArrayHeaderLayout) (n : Nat)
    (hinit : L.init.length = L.size) :
    (st.WriteStringRef owner w).1 = st.Buffer + st.Position ∧
    (st.WriteStringRef owner w).2.1.Position = st.Position + w ∧
    loadBytes (st.WriteStringRef owner w).2.2.Buffer (st.Buffer + st.Position) w =
      List.replicate w 0 ∧
    leValue (loadBytes (refThenString st owner w ws bytes).2.Buffer (st.Buffer + st.Position) w) =
      (st.Position + w + ws.flatten.length) % 256 ^ w ∧
    loadBytes (refThenString st owner w ws bytes).2.Buffer
      (st.Buffer + (st.Position + w + ws.flatten.length)) bytes.length = bytes ∧
    (∀ i, i < st.Buffer + (st.Position + w + ws.flatten.length) →
      ¬ (st.Buffer + st.Position ≤ i ∧ i < st.Buffer + st.Position + w) →
      (refThenString st owner w ws bytes).2.Buffer i =
        (stage ((st.WriteStringRef owner w).2.1, (st.WriteStringRef owner w).2.2) ws).2.Buffer
          i) ∧
    (st.WriteArrayRef owner L n).1 = st.Buffer + st.Position ∧
    (st.WriteArrayRef owner L n).2.1.Position = st.Position + L.size ∧
    leValue (loadBytes (st.WriteArrayRef owner L n).2.2.Buffer
      (st.Buffer + st.Position + L.countOffset) L.countSize) =
      n % 256 ^ sizeofTPacketSize % 256 ^ L.countSize := by
  have r1 : (st.WriteStringRef owner w).1 = st.Buffer + st.Position := rfl
  have r2 : (st.WriteStringRef owner w).2.1.Position = st.Position + w := by
    show st.Position + (leBytes w 0).length = _
    rw [length_leBytes]
  have r3 : loadBytes (st.WriteStringRef owner w).2.2.Buffer (st.Buffer + st.Position) w =
      List.replicate w 0 := by
    show loadBytes (storeBytes owner.Buffer (st.Buffer + st.Position) (leBytes w 0))
      (st.Buffer + st.Position) w = _
    have hl := loadBytes_storeBytes owner.Buffer (st.Buffer + st.Position) (leBytes w 0)
    rw [length_leBytes] at hl
    rw [hl, leBytes_zero]
  have hmem := refThenString_buffer st owner w ws bytes
  refine ⟨r1, r2, r3, refThenString_placeholder st owner w ws bytes, ?_, ?_, rfl, ?_, ?_⟩
  · rw [hmem]
    exact loadBytes_storeBytes _ _ _
  · intro i hi hni
    rw [hmem, storeBytes_below _ _ _ _ hi]
    unfold storeBytes
    rw [length_leBytes, if_neg hni]
  · show st.Position + L.init.length = _
    rw [hinit]
  · show leValue (loadBytes (storeBytes (storeBytes owner.Buffer (st.Buffer + st.Position) L.init)
      (st.Buffer + st.Position + L.countOffset)
      (leBytes L.countSize (n % 256 ^ sizeofTPacketSize)))
      (st.Buffer + st.Position + L.countOffset) L.countSize) = _
    have hl := loadBytes_storeBytes (storeBytes owner.Buffer (st.Buffer + st.Position) L.init)
      (st.Buffer + st.Position + L.countOffset)
      (leBytes L.countSize (n % 256 ^ sizeofTPacketSize))
    rw [length_leBytes] at hl
    rw [hl, leValue_leBytes]

/-- C22, witness: a two-byte offset type; a reference is taken at cursor 0 of a stream over an
empty `SendBuffer<32>`, three bytes are staged, and a string of two bytes is written through the
reference: the placeholder then holds 5. -/
theorem C22_back_patch_references_witness :
    leValue (loadBytes (refThenString ((SendBuffer.new 32 (fun _ => 0)).ToStream true)
      (SendBuffer.new 32 (fun _ => 0)) 2 [[1, 2, 3]] [65, 0]).2.Buffer
      (((SendBuffer.new 32 (fun _ => 0)).ToStream true).Buffer +
        ((SendBuffer.new 32 (fun _ => 0)).ToStream true).Position) 2) =
      (((SendBuffer.new 32 (fun _ => 0)).ToStream true).Position + 2 +
        [[1, 2, 3]].flatten.length) % 256 ^ 2 ∧
    (((SendBuffer.new 32 (fun _ => 0)).ToStream true).Position + 2 +
        [[1, 2, 3]].flatten.length) % 256 ^ 2 = 5 :=
  ⟨(C22_back_patch_references ((SendBuffer.new 32 (fun _ => 0)).ToStream true)
    (SendBuffer.new 32 (fun _ => 0)) 2 [[1, 2, 3]] [65, 0]
    { size := 4, countOffset := 0, countSize := 2, init := [0, 0, 0, 0] } 3
    (by decide)).2.2.2.1, by decide⟩

/-- C23: for every `RefCount` and every value of the pending-destroy flag, `ResetResource()`
leaves `RefCount` at 1 and the flag cleared, so that `IsPendingDestroy()` returns false, and does
not change the stored `Destroy` callback. -/
theorem C23_resetResource (r : MemoryResource) :
    r.ResetResource.RefCount = 1 ∧
    r.ResetResource.IsPendingDestroy = false ∧
    r.ResetResource.Destroy = r.Destroy :=
  ⟨rfl, rfl, rfl⟩

/-- C24: threads share one `MemoryResource<true>` whose `RefCount` (at least 1) counts the
references they hold; each thread enters `AddReference()` only while it holds a reference and
releases only references it holds. For every schedule of their atomic steps (the load and each
compare-and-swap round of `AddReference()`, the decrement of `ReleaseReferenceAndDestroy()`):
the destroy action (the callback called with `true`, or the default free) has run exactly once
when no reference is held any more and not at all before, so never more than once; `RefCount` is
the number of references held, in 32 bits; no step is possible exactly when every reference has
been released. At every step of every schedule the destroy action runs if and only if the step
is a release that finds `RefCount` at 1, and that release leaves `RefCount` at 0. -/
theorem C24_destroy_once_under_interleaving (res : MemoryResource) (held : List Nat)
    (sched : List Event) (s : Conc)
    (h1 : res.RefCount = held.sum) (h2 : 1 ≤ res.RefCount) (h3 : res.RefCount < U32)
    (hrun : run (Conc.start res held) sched = some s) :
    s.log = (if totalHeld s.threads = 0 then [destroyAction res] else []) ∧
    s.log.length ≤ 1 ∧
    totalHeld s.threads ≤ U32 ∧
    s.res.RefCount = totalHeld s.threads % U32 ∧
    ((∀ e, step s e = none) ↔ totalHeld s.threads = 0) ∧
    (∀ pre e s1 s2, run (Conc.start res held) pre = some s1 → step s1 e = some s2 →
      (s2.log ≠ s1.log ↔ (∃ t, e = Event.release t) ∧ s1.res.RefCount = 1) ∧
      (s2.log ≠ s1.log →
        s1.log = [] ∧ s2.log = [destroyAction res] ∧ s2.res.RefCount = 0 ∧
        totalHeld s2.threads = 0)) := by
  have hstart := concInv_start res held h1 h2 h3
  have hact : ∀ x : Conc, x.res.Destroy = (Conc.start res held).res.Destroy →
      destroyAction x.res = destroyAction res := by
    intro x hx
    unfold destroyAction
    rw [hx]
    rfl
  obtain ⟨hi, hd⟩ := run_spec sched _ s hstart hrun
  have hlog : s.log = (if totalHeld s.threads = 0 then [destroyAction res] else []) := by
    rw [hi.2.2.2, hact s hd]
  refine ⟨hlog, ?_, hi.1, hi.2.1, ?_, ?_⟩
  · rw [hlog]
    split_ifs <;> simp
  · constructor
    · intro hn
      by_contra h0
      obtain ⟨e, s1, he⟩ := step_some_of_held s (Nat.pos_of_ne_zero h0)
      rw [hn e] at he
      exact absurd he (by simp)
    · intro h0 e
      exact step_none_of_released s hi h0 e
  · intro pre e s1 s2 hpre hst
    obtain ⟨hi1, hd1⟩ := run_spec pre _ s1 hstart hpre
    obtain ⟨hi2, _, hiff, hch⟩ := step_spec s1 s2 e hi1 hst
    refine ⟨hiff, ?_⟩
    intro hne
    obtain ⟨hz, hl⟩ := hch hne
    have hpos : ¬ totalHeld s1.threads = 0 := by
      intro h0
      rw [step_none_of_released s1 hi1 h0 e] at hst
      exact absurd hst (by simp)
    have hl1 : s1.log = [] := by
      rw [hi1.2.2.2, if_neg hpos]
    have hl2 : s2.log = [destroyAction res] := by
      rw [hl, hl1, hact s1 hd1]
      rfl
    refine ⟨hl1, hl2, hz, ?_⟩
    by_contra h0
    have := hi2.2.2.2
    rw [if_neg h0, hl2] at this
    exact absurd this (by simp)

/-- C24, witness: two threads hold one reference each of a resource with `RefCount` 2 and the
callback 7. Both load 2; thread 0 adds (3); the compare-and-swap of thread 1 fails and its second
round adds (4); four releases follow, the last of which runs the callback, once. -/
theorem C24_destroy_once_under_interleaving_witness :
    run (Conc.start ⟨some 7, 2, false⟩ [1, 1])
      [Event.load 0, Event.load 1, Event.cas 0, Event.cas 1, Event.cas 1, Event.release 0,
        Event.release 1, Event.release 0, Event.release 1] =
      some ⟨⟨some 7, 0, false⟩, [DestroyEvent.callback 7 true], [⟨0, none⟩, ⟨0, none⟩]⟩ ∧
    (Conc.mk ⟨some 7, 0, false⟩ [DestroyEvent.callback 7 true] [⟨0, none⟩, ⟨0, none⟩]).log =
      [DestroyEvent.callback 7 true] :=
  ⟨by decide, by
    have h := (C24_destroy_once_under_interleaving ⟨some 7, 2, false⟩ [1, 1]
      [Event.load 0, Event.load 1, Event.cas 0, Event.cas 1, Event.cas 1, Event.release 0,
        Event.release 1, Event.release 0, Event.release 1]
      ⟨⟨some 7, 0, false⟩, [DestroyEvent.callback 7 true], [⟨0, none⟩, ⟨0, none⟩]⟩
      (by decide) (by decide) (by decide) (by decide)).1
    exact h⟩

/-- C25: for a bound stream with staged cursor `k` over an owner with write position `p`
(`p + 2k` within `uint32_t`): after `Commit(false)` the owner is at `p + k`, and a second
commit, explicit with either value of `Rebase` or by the destructor, puts it at `p + 2k`; after
`Commit(true)` the owner is at `p + k` and a second commit or the destructor leaves it there. -/
theorem C25_commit_twice (st : TStream) (owner : SendBuffer) (Rebase : Bool)
    (hb : st.Stream = true) (h : owner.Position + 2 * st.Position < U32) :
    (st.Commit owner false).2.Position = owner.Position + st.Position ∧
    ((st.Commit owner false).1.Commit (st.Commit owner false).2 Rebase).2.Position =
      owner.Position + 2 * st.Position ∧
    ((st.Commit owner false).1.dtor (st.Commit owner false).2).2.Position =
      owner.Position + 2 * st.Position ∧
    (st.Commit owner true).2.Position = owner.Position + st.Position ∧
    ((st.Commit owner true).1.Commit (st.Commit owner true).2 Rebase).2.Position =
      owner.Position + st.Position ∧
    ((st.Commit owner true).1.dtor (st.Commit owner true).2).2.Position =
      owner.Position + st.Position := by
  have h1 : owner.Position + st.Position < U32 := by omega
  have ef := TStream.commit_eq st owner false h1
  have et := TStream.commit_eq st owner true h1
  simp only [Bool.false_eq_true, if_false] at ef
  simp only [if_true] at et
  have hf2 : (st.Commit owner false).2.Position + (st.Commit owner false).1.Position < U32 := by
    rw [ef]; show owner.Position + st.Position + st.Position < U32; omega
  have ht2 : (st.Commit owner true).2.Position + (st.Commit owner true).1.Position < U32 := by
    rw [et]; show owner.Position + st.Position + 0 < U32; omega
  have hfs : (st.Commit owner false).1.Stream = true := by rw [ef]; exact hb
  have hts : (st.Commit owner true).1.Stream = true := by rw [et]; exact hb
  refine ⟨by rw [ef], ?_, ?_, by rw [et], ?_, ?_⟩
  · rw [TStream.commit_eq _ _ Rebase hf2, ef]
    show owner.Position + st.Position + st.Position = _
    omega
  · unfold TStream.dtor
    rw [if_pos hfs, TStream.commit_eq _ _ true hf2, ef]
    show owner.Position + st.Position + st.Position = _
    omega
  · rw [TStream.commit_eq _ _ Rebase ht2, et]
    show owner.Position + st.Position + 0 = _
    omega
  · unfold TStream.dtor
    rw [if_pos hts, TStream.commit_eq _ _ true ht2, et]
    show owner.Position + st.Position + 0 = _
    omega

/-- C25, witness: a stream over a `SendBuffer<16>` at write position 2 with 3 staged bytes;
`Commit(false)` and the destructor leave the owner at 8. -/
theorem C25_commit_twice_witness :
    ((TStream.Commit { Buffer := 2, Size := 14, Position := 3, Stream := true }
        { BufferSize := 16, Position := 2, Buffer := fun _ => 0 } false).1.dtor
      (TStream.Commit { Buffer := 2, Size := 14, Position := 3, Stream := true }
        { BufferSize := 16, Position := 2, Buffer := fun _ => 0 } false).2).2.Position =
      2 + 2 * 3 :=
  (C25_commit_twice { Buffer := 2, Size := 14, Position := 3, Stream := true }
    { BufferSize := 16, Position := 2, Buffer := fun _ => 0 } true (by decide)
    (by decide)).2.2.1

/-- C26: move assignment into a destination `dest` that is bound and holds staged bytes. The
assignment has no statement that goes through a `Stream` pointer, so no owner is changed by it;
its result does not depend on `dest` at all: the destination afterwards holds exactly the view,
the cursor and the binding of `Other`, and `Other` is left unbound. Hence the destruction of the
moved-from stream leaves any owner as it is and the destruction of the destination advances the
owner by the cursor of `Other` only: the bytes staged through `dest` are never committed. -/
theorem C26_move_assign_drops_session (dest dest' Other : TStream) (owner B : SendBuffer)
    (ho : Other.Stream = true) (h : owner.Position + Other.Position < U32) :
    TStream.moveAssign dest Other = TStream.moveAssign dest' Other ∧
    (TStream.moveAssign dest Other).1.toIStream = Other.toIStream ∧
    (TStream.moveAssign dest Other).1.Stream = Other.Stream ∧
    (TStream.moveAssign dest Other).2.Stream = false ∧
    ((TStream.moveAssign dest Other).2.dtor B).2 = B ∧
    ((TStream.moveAssign dest Other).1.dtor owner).2.Position =
      owner.Position + Other.Position ∧
    ((TStream.moveAssign dest Other).2.dtor
      ((TStream.moveAssign dest Other).1.dtor owner).2).2.Position =
      owner.Position + Other.Position := by
  have h1 : Other.Position % U32 = Other.Position := Nat.mod_eq_of_lt (by omega)
  have h2 : (owner.Position + Other.Position) % U32 = owner.Position + Other.Position :=
    Nat.mod_eq_of_lt h
  refine ⟨rfl, rfl, rfl, rfl, rfl, ?_, ?_⟩ <;>
  simp [TStream.moveAssign, TStream.dtor, TStream.Commit, TStream.Release,
    TStream.GetPosition, IStream.move, IStream.Release, ho, h1, h2]

/-- C26, witness: the destination holds 4 staged bytes over an owner at write position 2, the
source 3 staged bytes over the same owner; after the assignment and the destruction of the
destination the owner is at 5, not at 6 or 9. -/
theorem C26_move_assign_drops_session_witness :
    ((TStream.moveAssign { Buffer := 2, Size := 14, Position := 4, Stream := true }
        { Buffer := 2, Size := 14, Position := 3, Stream := true }).1.dtor
      { BufferSize := 16, Position := 2, Buffer := fun _ => 0 }).2.Position = 2 + 3 :=
  (C26_move_assign_drops_session { Buffer := 2, Size := 14, Position := 4, Stream := true }
    { Buffer := 0, Size := 0, Position := 0, Stream := false }
    { Buffer := 2, Size := 14, Position := 3, Stream := true }
    { BufferSize := 16, Position := 2, Buffer := fun _ => 0 }
    { BufferSize := 16, Position := 2, Buffer := fun _ => 0 } (by decide) (by decide)).2.2.2.2.2.1

/-- C27: for every send buffer state (capacity a `uint32_t`) and every array of `N` elements of
`sz` bytes with bytes `Message` (`Position + N * sz` within `uint32_t`), the array overload of
`Write` returns success, stores the `N * sz` bytes at the old write position and advances
`Position` by `N * sz`, whether or not `N * sz` exceeds `GetRemaining()`; afterwards
`GetRemaining()` is capacity minus write position modulo `2^32`. -/
theorem C27_array_write_unchecked (s : SendBuffer) (Message : List Nat) (N sz : Nat)
    (hC : s.BufferSize < U32) (hlen : Message.length = N * sz)
    (hsum : s.Position + N * sz < U32) :
    (s.WriteArray Message N sz).1 = RStatus.RSuccess ∧
    (s.WriteArray Message N sz).2.Position = s.Position + N * sz ∧
    (s.WriteArray Message N sz).2.BufferSize = s.BufferSize ∧
    loadBytes (s.WriteArray Message N sz).2.Buffer s.Position (N * sz) = Message ∧
    ((s.WriteArray Message N sz).2.GetRemaining : Int) =
      ((s.BufferSize : Int) - ((s.WriteArray Message N sz).2.Position : Int)) % 4294967296 := by
  have hres : (memcpy_s s.Buffer s.GetFront (N * sz) Message (N * sz)) =
      (0, storeBytes s.Buffer s.Position Message) := by
    unfold memcpy_s SendBuffer.GetFront
    by_cases h0 : N * sz = 0
    · have hnil : Message = [] := List.length_eq_zero.mp (by rw [hlen, h0])
      rw [if_pos h0, hnil, storeBytes_nil]
    · rw [if_neg h0, if_neg (Nat.lt_irrefl _), ← hlen, List.take_length]
  have hw : s.WriteArray Message N sz =
      (RStatus.RSuccess, { s with Buffer := storeBytes s.Buffer s.Position Message,
                                  Position := s.Position + N * sz }) := by
    unfold SendBuffer.WriteArray
    rw [hres, Nat.mod_eq_of_lt hsum]
    simp
  rw [hw]
  refine ⟨rfl, rfl, rfl, ?_, ?_⟩
  · have hl := loadBytes_storeBytes s.Buffer s.Position Message
    rw [hlen] at hl
    exact hl
  · show (((s.BufferSize + U32 - (s.Position + N * sz)) % U32 : Nat) : Int) =
      ((s.BufferSize : Int) - ((s.Position + N * sz : Nat) : Int)) % 4294967296
    have hU : U32 = 4294967296 := rfl
    rw [hU] at hC hsum ⊢
    omega

/-- C27, witness: a `SendBuffer<4>` with 3 bytes written receives the 2-byte array `"A"`:
`GetRemaining()` was 1, the write succeeds, `Position` becomes 5 and `GetRemaining()` becomes
`2^32 - 1`. -/
theorem C27_array_write_unchecked_witness :
    SendBuffer.GetRemaining { BufferSize := 4, Position := 3, Buffer := fun _ => 0 } = 1 ∧
    ((SendBuffer.WriteArray { BufferSize := 4, Position := 3, Buffer := fun _ => 0 } [65, 0]
        2 1).1 = RStatus.RSuccess ∧
     (SendBuffer.WriteArray { BufferSize := 4, Position := 3, Buffer := fun _ => 0 } [65, 0]
        2 1).2.Position = 3 + 2 * 1) ∧
    (SendBuffer.WriteArray { BufferSize := 4, Position := 3, Buffer := fun _ => 0 } [65, 0]
        2 1).2.GetRemaining = 4294967295 :=
  ⟨by decide,
   ⟨(C27_array_write_unchecked { BufferSize := 4, Position := 3, Buffer := fun _ => 0 } [65, 0]
      2 1 (by decide) (by decide) (by decide)).1,
    (C27_array_write_unchecked { BufferSize := 4, Position := 3, Buffer := fun _ => 0 } [65, 0]
      2 1 (by decide) (by decide) (by decide)).2.1⟩,
   by decide⟩

end CommonEx
